import Mathlib

/-!
Verification of the room-based quiz coordinator backend.

The development shallowly embeds the socket event handlers of the server
source (`createRoom`, `joinRoom`, `addQuestion`, `startQuiz`, `submitAnswer`,
`nextQuestion`, `endQuiz`, `sendManualQuestion`, `getQuizStatus`, `disconnect`)
together with the helper functions `sendQuestion` and `endQuizAutomatically`.

The in-memory registry `rooms` is a JS object keyed by room id; JS objects
are modelled as association lists that preserve insertion order: assignment
to an existing key replaces the value in place, assignment to a fresh key
appends, and deletion removes the entry.  Outbound socket messages are
modelled as a list of emissions, each carrying a target (the calling
connection, or a whole room), the event name, and a JSON-like payload value
mirroring the object literals of the source.
-/

namespace Quiz

/-- A JSON-like value, modelling the dynamically typed payloads the server
emits over the socket. Object fields keep the literal order of the source. -/
inductive JVal where
  | null : JVal
  | bool : Bool → JVal
  | num : Int → JVal
  | str : String → JVal
  | arr : List JVal → JVal
  | obj : List (String × JVal) → JVal

/-- The top-level field names of a payload (empty for non-object payloads). -/
def payloadKeys : JVal → List String
  | .obj fields => fields.map Prod.fst
  | _ => []

/-- Where an outbound message is delivered: the originating connection
(`socket.emit`) or a whole room (`io.to(roomId).emit`). -/
inductive Target where
  | caller : Target
  | room : String → Target
deriving DecidableEq, Repr

/-- One outbound socket message: target, event name, payload. -/
structure Emission where
  target : Target
  event : String
  payload : JVal

/-- A pre-loaded question record as pushed by `addQuestion`. -/
structure Question where
  question : String
  options : List String
  correctIndex : Int
deriving DecidableEq, Repr

/-- Per-room player record created by `joinRoom`. -/
structure Player where
  name : String
  score : Nat
  hasAnswered : Bool
  currentAnswer : Option Int
deriving DecidableEq, Repr

/-- The public view of the current question stored on the room by
`sendManualQuestion` (the `questionData` object literal). -/
structure QuestionData where
  question : String
  options : List String
  index : Nat
  questionNumber : Nat
deriving DecidableEq, Repr

/-- A room record. Fields the source leaves `undefined` at creation
(`currentQuestion`, `currentCorrectAnswer`, `isActive`) are modelled as
`none` / `false`, matching every use site (falsy checks and
`!== undefined`). -/
structure Room where
  hostId : String
  currentQuestionIndex : Nat
  questions : List Question
  players : List (String × Player)
  currentQuestion : Option QuestionData
  currentCorrectAnswer : Option Int
  isActive : Bool
  isQuizEnded : Bool
  totalQuestions : Nat
deriving DecidableEq, Repr

/-- The room registry: a JS object keyed by room id, in insertion order. -/
abbrev Rooms := List (String × Room)

/-- JS object property read: first binding for the key, if any. -/
def findKey {α : Type} : List (String × α) → String → Option α
  | [], _ => none
  | (k, v) :: rest, k' => if k = k' then some v else findKey rest k'

/-- JS object property assignment: replace in place when the key exists,
append otherwise. -/
def setKey {α : Type} : List (String × α) → String → α → List (String × α)
  | [], k, v => [(k, v)]
  | (k', v') :: rest, k, v =>
      if k' = k then (k, v) :: rest else (k', v') :: setKey rest k v

/-- JS `delete` of an object property. -/
def delKey {α : Type} : List (String × α) → String → List (String × α)
  | [], _ => []
  | (k', v') :: rest, k =>
      if k' = k then delKey rest k else (k', v') :: delKey rest k

theorem findKey_setKey_self {α : Type} (l : List (String × α)) (k : String) (v : α) :
    findKey (setKey l k v) k = some v := by
  induction l with
  | nil => simp [setKey, findKey]
  | cons hd tl ih =>
      by_cases h : hd.1 = k
      · simp [setKey, h, findKey]
      · simp [setKey, h, findKey, ih]

theorem findKey_setKey_ne {α : Type} (l : List (String × α)) (k k' : String) (v : α)
    (h : k' ≠ k) : findKey (setKey l k v) k' = findKey l k' := by
  induction l with
  | nil => simp [setKey, findKey, Ne.symm h]
  | cons hd tl ih =>
      by_cases hh : hd.1 = k
      · simp [setKey, hh, findKey, Ne.symm h]
      · simp [setKey, hh, findKey, ih]

theorem findKey_delKey_self {α : Type} (l : List (String × α)) (k : String) :
    findKey (delKey l k) k = none := by
  induction l with
  | nil => simp [delKey, findKey]
  | cons hd tl ih =>
      by_cases h : hd.1 = k
      · simpa [delKey, h] using ih
      · simpa [delKey, findKey, h] using ih

theorem findKey_delKey_ne {α : Type} (l : List (String × α)) (k k' : String)
    (h : k' ≠ k) : findKey (delKey l k) k' = findKey l k' := by
  induction l with
  | nil => simp [delKey, findKey]
  | cons hd tl ih =>
      by_cases hh : hd.1 = k
      · simp [delKey, findKey, hh, Ne.symm h, ih]
      · by_cases hk' : hd.1 = k'
        · simp [delKey, findKey, hh, hk', h]
        · simp [delKey, findKey, hh, hk', ih]

/-- JS `null` / number for an optional `currentAnswer`. -/
def optIntToJVal : Option Int → JVal
  | none => .null
  | some n => .num n

/-- A full player record as an object (the shape broadcast by `joinRoom`
and `disconnect`, which send the raw players map). -/
def playerToJVal (p : Player) : JVal :=
  .obj [("name", .str p.name), ("score", .num p.score),
        ("hasAnswered", .bool p.hasAnswered),
        ("currentAnswer", optIntToJVal p.currentAnswer)]

/-- The raw players map as an object keyed by connection id. -/
def playersToJVal (ps : List (String × Player)) : JVal :=
  .obj (ps.map fun kv => (kv.1, playerToJVal kv.2))

/-- The projected per-player snapshot built inside `submitAnswer`
(`name`, `score`, `hasAnswered` only; the answer content is never sent). -/
def playerSnapshotToJVal (p : Player) : JVal :=
  .obj [("name", .str p.name), ("score", .num p.score),
        ("hasAnswered", .bool p.hasAnswered)]

/-- The `playersData` object broadcast by `submitAnswer`. -/
def playersSnapshotToJVal (ps : List (String × Player)) : JVal :=
  .obj (ps.map fun kv => (kv.1, playerSnapshotToJVal kv.2))

/-- The `questionData` object literal of `sendManualQuestion`, in source
field order: question, options, index, questionNumber. -/
def questionDataToJVal (qd : QuestionData) : JVal :=
  .obj [("question", .str qd.question),
        ("options", .arr (qd.options.map JVal.str)),
        ("index", .num qd.index),
        ("questionNumber", .num qd.questionNumber)]

/-- JS `undefined`-or-object for the stored `currentQuestion`. -/
def optQuestionDataToJVal : Option QuestionData → JVal
  | none => .null
  | some qd => questionDataToJVal qd

/-- One entry of the `finalResults` array computed by `endQuiz` and
`endQuizAutomatically`. -/
structure FinalResult where
  playerId : String
  name : String
  score : Nat
  totalQuestions : Nat
  percentage : Int
deriving DecidableEq, Repr

/-- A final-result entry as an object, in source field order. -/
def finalResultToJVal (r : FinalResult) : JVal :=
  .obj [("playerId", .str r.playerId), ("name", .str r.name),
        ("score", .num r.score), ("totalQuestions", .num r.totalQuestions),
        ("percentage", .num r.percentage)]

/-- `Math.round`: round half toward positive infinity, i.e. `⌊x + 1/2⌋`. -/
def jsRound (q : ℚ) : Int := round q

/-- The result entry built by the host `endQuiz` handler:
`totalQuestions = currentQuestionIndex + 1`, and
`percentage = currentQuestionIndex >= 0 ? Math.round(score / (currentQuestionIndex + 1) * 100) : 0`. -/
def finalResultHost (cqi : Nat) (kv : String × Player) : FinalResult :=
  { playerId := kv.1
    name := kv.2.name
    score := kv.2.score
    totalQuestions := cqi + 1
    percentage :=
      if 0 ≤ cqi then jsRound ((kv.2.score : ℚ) / ((cqi : ℚ) + 1) * 100) else 0 }

/-- The result entry built by `endQuizAutomatically`:
`totalQuestions = currentQuestionIndex`, and
`percentage = currentQuestionIndex > 0 ? Math.round(score / currentQuestionIndex * 100) : 0`. -/
def finalResultAuto (cqi : Nat) (kv : String × Player) : FinalResult :=
  { playerId := kv.1
    name := kv.2.name
    score := kv.2.score
    totalQuestions := cqi
    percentage :=
      if 0 < cqi then jsRound ((kv.2.score : ℚ) / (cqi : ℚ) * 100) else 0 }

/-- Stable insertion for the descending sort
`finalResults.sort((a, b) => b.score - a.score)`: an element passes over
entries with strictly greater score and lands before the first entry whose
score is less than or equal to its own, so equal scores keep their
encounter order. -/
def insertFR (x : FinalResult) : List FinalResult → List FinalResult
  | [] => [x]
  | y :: ys => if y.score ≤ x.score then x :: y :: ys else y :: insertFR x ys

/-- The stable descending-by-score sort applied to `finalResults`
(JS `Array.prototype.sort` is stable). -/
def sortFinal : List FinalResult → List FinalResult
  | [] => []
  | x :: xs => insertFR x (sortFinal xs)

/-- The quizEnded payload: results, totalQuestions, endedBy. -/
def quizEndedPayload (results : List FinalResult) (totalQuestions : Nat)
    (endedBy : String) : JVal :=
  .obj [("results", .arr (results.map finalResultToJVal)),
        ("totalQuestions", .num totalQuestions),
        ("endedBy", .str endedBy)]

/-- An error message sent back to the originating connection. -/
def errTo (s : String) : Emission :=
  ⟨Target.caller, "errorMessage", .str s⟩

/-- The reset applied to every player when a new question goes out:
`hasAnswered = false`, `currentAnswer = null`. -/
def resetP (p : Player) : Player :=
  { p with hasAnswered := false, currentAnswer := none }

/-- The per-question reset loop over the players map
(`Object.keys(room.players).forEach(...)`; the inner truthiness check on
the player object is always true). -/
def resetPlayers (ps : List (String × Player)) : List (String × Player) :=
  ps.map fun kv => (kv.1, resetP kv.2)

theorem findKey_resetPlayers (ps : List (String × Player)) (c : String) :
    findKey (resetPlayers ps) c = (findKey ps c).map resetP := by
  induction ps with
  | nil => simp [resetPlayers, findKey]
  | cons hd tl ih =>
      by_cases h : hd.1 = c
      · simp [resetPlayers, findKey, h]
      · simpa [resetPlayers, findKey, h] using ih

/-- The grading block of `submitAnswer`: prefer the stored
`currentCorrectAnswer` when it is not undefined, otherwise look up
`questions[currentQuestionIndex]`; when that is also missing the initial
values `isCorrect = false`, `correctIndex = -1` stand. Returns
`(isCorrect, correctIndex)`. -/
def gradeAnswer (room : Room) (selectedIndex : Int) : Bool × Int :=
  match room.currentCorrectAnswer with
  | some ci => (selectedIndex == ci, ci)
  | none =>
      match room.questions.get? room.currentQuestionIndex with
      | some q => (q.correctIndex == selectedIndex, q.correctIndex)
      | none => (false, -1)

/-- `createRoom` handler: unconditionally overwrite the entry for
`roomId` with a fresh room hosted by the caller and confirm to the
caller only. -/
def createRoom (rooms : Rooms) (caller roomId : String) :
    Rooms × List Emission :=
  (setKey rooms roomId
    { hostId := caller
      currentQuestionIndex := 0
      questions := []
      players := []
      currentQuestion := none
      currentCorrectAnswer := none
      isActive := false
      isQuizEnded := false
      totalQuestions := 0 },
   [⟨Target.caller, "roomCreated", .obj [("roomId", .str roomId)]⟩])

/-- `joinRoom` handler. -/
def joinRoom (rooms : Rooms) (caller roomId pname : String) :
    Rooms × List Emission :=
  match findKey rooms roomId with
  | none => (rooms, [errTo "Room not found"])
  | some room =>
      let room' := { room with
        players := setKey room.players caller
          { name := pname, score := 0, hasAnswered := false, currentAnswer := none } }
      (setKey rooms roomId room',
       [⟨Target.room roomId, "playersUpdated", playersToJVal room'.players⟩])

/-- `addQuestion` handler: silent no-op unless the caller is the host. -/
def addQuestion (rooms : Rooms) (caller roomId : String) (q : Question) :
    Rooms × List Emission :=
  match findKey rooms roomId with
  | none => (rooms, [])
  | some room =>
      if room.hostId = caller then
        (setKey rooms roomId { room with questions := room.questions ++ [q] }, [])
      else (rooms, [])

/-- `endQuizAutomatically` helper: terminate with `endedBy: "automatic"`,
`totalQuestions = currentQuestionIndex`. -/
def endQuizAutomatically (rooms : Rooms) (roomId : String) :
    Rooms × List Emission :=
  match findKey rooms roomId with
  | none => (rooms, [])
  | some room =>
      if room.isQuizEnded then (rooms, [])
      else
        let results := sortFinal (room.players.map (finalResultAuto room.currentQuestionIndex))
        (setKey rooms roomId { room with isQuizEnded := true },
         [⟨Target.room roomId, "quizEnded",
            quizEndedPayload results room.currentQuestionIndex "automatic"⟩])

/-- `sendQuestion` helper: no-op on a missing or ended room; exhaustion of
the pre-loaded sequence triggers automatic termination; otherwise reset
every player and broadcast the question (field order of the source
literal: index, questionNumber, question, options). -/
def sendQuestion (rooms : Rooms) (roomId : String) : Rooms × List Emission :=
  match findKey rooms roomId with
  | none => (rooms, [])
  | some room =>
      if room.isQuizEnded then (rooms, [])
      else
        match room.questions.get? room.currentQuestionIndex with
        | none => endQuizAutomatically rooms roomId
        | some q =>
            (setKey rooms roomId { room with players := resetPlayers room.players },
             [⟨Target.room roomId, "newQuestion",
                .obj [("index", .num room.currentQuestionIndex),
                      ("questionNumber", .num (room.currentQuestionIndex + 1)),
                      ("question", .str q.question),
                      ("options", .arr (q.options.map JVal.str))]⟩])

/-- `startQuiz` handler: dispatch at the current cursor, with no host or
membership check of any kind. -/
def startQuiz (rooms : Rooms) (roomId : String) : Rooms × List Emission :=
  sendQuestion rooms roomId

/-- `submitAnswer` handler. The first guard is `!roomId || !rooms[roomId]`,
so an empty (falsy) room id is rejected as "Room not found" even when an
entry under the empty-string key exists. -/
def submitAnswer (rooms : Rooms) (caller roomId : String) (selectedIndex : Int) :
    Rooms × List Emission :=
  if roomId = "" then (rooms, [errTo "Room not found"])
  else
    match findKey rooms roomId with
    | none => (rooms, [errTo "Room not found"])
    | some room =>
        match findKey room.players caller with
        | none => (rooms, [errTo "Player not found in room"])
        | some player =>
            if player.hasAnswered then
              (rooms, [errTo "You have already answered this question"])
            else if room.isQuizEnded then
              (rooms, [errTo "Quiz has ended"])
            else
              let graded := gradeAnswer room selectedIndex
              let player2 :=
                if graded.1 then
                  { player with
                      hasAnswered := true
                      currentAnswer := some selectedIndex
                      score := player.score + 1 }
                else
                  { player with hasAnswered := true, currentAnswer := some selectedIndex }
              let room' := { room with players := setKey room.players caller player2 }
              (setKey rooms roomId room',
               [⟨Target.caller, "answerResult",
                  .obj [("correct", .bool graded.1),
                        ("correctIndex", .num graded.2),
                        ("currentScore", .num player2.score),
                        ("questionNumber", .num (room.currentQuestionIndex + 1))]⟩,
                ⟨Target.room roomId, "playersUpdated",
                  playersSnapshotToJVal room'.players⟩])

/-- `nextQuestion` handler: silent no-op unless the caller is the host of
an existing room; error once ended; otherwise advance the cursor, reset
every player and dispatch. -/
def nextQuestion (rooms : Rooms) (caller roomId : String) :
    Rooms × List Emission :=
  match findKey rooms roomId with
  | none => (rooms, [])
  | some room =>
      if room.hostId = caller then
        if room.isQuizEnded then (rooms, [errTo "Quiz has already ended"])
        else
          let room1 := { room with
            currentQuestionIndex := room.currentQuestionIndex + 1,
            players := resetPlayers room.players }
          sendQuestion (setKey rooms roomId room1) roomId
      else (rooms, [])

/-- `endQuiz` handler: `room?.hostId !== socket.id` also catches a missing
room, so both cases emit the host error; terminate with
`endedBy: "host"`, `totalQuestions = currentQuestionIndex + 1`. -/
def endQuiz (rooms : Rooms) (caller roomId : String) : Rooms × List Emission :=
  match findKey rooms roomId with
  | none => (rooms, [errTo "Only the host can end the quiz"])
  | some room =>
      if room.hostId = caller then
        if room.isQuizEnded then (rooms, [errTo "Quiz has already ended"])
        else
          let results := sortFinal (room.players.map (finalResultHost room.currentQuestionIndex))
          (setKey rooms roomId { room with isQuizEnded := true },
           [⟨Target.room roomId, "quizEnded",
              quizEndedPayload results (room.currentQuestionIndex + 1) "host"⟩])
      else (rooms, [errTo "Only the host can end the quiz"])

/-- `sendManualQuestion` handler. Guards in source order: falsy or missing
room id, non-host caller, ended quiz, then shape validation (`!question`
models missing or empty question text). On success the cursor advances by
1 only when a question was already active. -/
def sendManualQuestion (rooms : Rooms) (caller roomId question : String)
    (options : List String) (correctIndex : Int) : Rooms × List Emission :=
  if roomId = "" then (rooms, [errTo "Room not found"])
  else
    match findKey rooms roomId with
    | none => (rooms, [errTo "Room not found"])
    | some room =>
        if room.hostId = caller then
          if room.isQuizEnded then (rooms, [errTo "Quiz has already ended"])
          else if question = "" ∨ options.length ≠ 4 ∨ correctIndex < 0 ∨ 3 < correctIndex then
            (rooms, [errTo "Invalid question format"])
          else
            let idx := if room.isActive then room.currentQuestionIndex + 1
                       else room.currentQuestionIndex
            let qd : QuestionData :=
              { question := question.trim
                options := options.map String.trim
                index := idx
                questionNumber := idx + 1 }
            let room' := { room with
              currentQuestionIndex := idx
              currentCorrectAnswer := some correctIndex
              currentQuestion := some qd
              isActive := true
              players := resetPlayers room.players }
            (setKey rooms roomId room',
             [⟨Target.room roomId, "newQuestion", questionDataToJVal qd⟩])
        else (rooms, [errTo "Only the host can send questions"])

/-- `getQuizStatus` handler: read-only reply to the caller. -/
def getQuizStatus (rooms : Rooms) (roomId : String) : Rooms × List Emission :=
  match findKey rooms roomId with
  | none => (rooms, [errTo "Room not found"])
  | some room =>
      (rooms,
       [⟨Target.caller, "quizStatus",
          .obj [("isQuizEnded", .bool room.isQuizEnded),
                ("currentQuestionIndex", .num room.currentQuestionIndex),
                ("isActive", .bool room.isActive),
                ("currentQuestion", optQuestionDataToJVal room.currentQuestion),
                ("players", playersToJVal room.players)]⟩])

/-- `disconnect` handler: walk the registry in key order; every room whose
players map contains the disconnecting connection has the entry deleted
and receives a `playersUpdated` broadcast; every other room is untouched. -/
def disconnect (rooms : Rooms) (caller : String) : Rooms × List Emission :=
  match rooms with
  | [] => ([], [])
  | (rid, room) :: rest =>
      let hd : (String × Room) × List Emission :=
        if (findKey room.players caller).isSome then
          let room' := { room with players := delKey room.players caller }
          ((rid, room'),
           [⟨Target.room rid, "playersUpdated", playersToJVal room'.players⟩])
        else ((rid, room), [])
      let tl := disconnect rest caller
      (hd.1 :: tl.1, hd.2 ++ tl.2)

/-- An inbound client event, tagged with its payload. -/
inductive Event where
  | createRoom : String → Event
  | joinRoom : String → String → Event
  | addQuestion : String → Question → Event
  | startQuiz : String → Event
  | submitAnswer : String → Int → Event
  | nextQuestion : String → Event
  | endQuiz : String → Event
  | sendManualQuestion : String → String → List String → Int → Event
  | getQuizStatus : String → Event
  | disconnect : Event
deriving DecidableEq, Repr

/-- The event router: dispatch one inbound event from connection `caller`
against the registry, returning the new registry and the emissions. -/
def step (rooms : Rooms) (caller : String) : Event → Rooms × List Emission
  | .createRoom roomId => createRoom rooms caller roomId
  | .joinRoom roomId pname => joinRoom rooms caller roomId pname
  | .addQuestion roomId q => addQuestion rooms caller roomId q
  | .startQuiz roomId => startQuiz rooms roomId
  | .submitAnswer roomId si => submitAnswer rooms caller roomId si
  | .nextQuestion roomId => nextQuestion rooms caller roomId
  | .endQuiz roomId => endQuiz rooms caller roomId
  | .sendManualQuestion roomId q o ci => sendManualQuestion rooms caller roomId q o ci
  | .getQuizStatus roomId => getQuizStatus rooms roomId
  | .disconnect => disconnect rooms caller

/-- Run a sequence of (caller, event) pairs through the router. -/
def steps : Rooms → List (String × Event) → Rooms
  | rooms, [] => rooms
  | rooms, (cal, e) :: tr => steps (step rooms cal e).1 tr

/-- The player record for connection `c` in room `rid`, if both exist. -/
def playerOf (rooms : Rooms) (rid c : String) : Option Player :=
  (findKey rooms rid).bind fun room => findKey room.players c

/-! ### Generic lemmas about the association-list operations -/

theorem findKey_map_value {α β : Type} (f : α → β) (l : List (String × α)) (k : String) :
    findKey (l.map fun kv => (kv.1, f kv.2)) k = (findKey l k).map f := by
  induction l with
  | nil => simp [findKey]
  | cons hd tl ih => by_cases h : hd.1 = k <;> simp [findKey, h, ih]

theorem playerOf_setKey_self (rooms : Rooms) (rid c : String) (room' : Room) :
    playerOf (setKey rooms rid room') rid c = findKey room'.players c := by
  simp [playerOf, findKey_setKey_self]

theorem playerOf_setKey_ne (rooms : Rooms) (rid rid' c : String) (room' : Room)
    (h : rid ≠ rid') :
    playerOf (setKey rooms rid' room') rid c = playerOf rooms rid c := by
  simp [playerOf, findKey_setKey_ne _ _ _ _ h]

/-! ### Lemmas about the stable descending sort of final results -/

theorem mem_insertFR (x a : FinalResult) (l : List FinalResult) :
    a ∈ insertFR x l ↔ a = x ∨ a ∈ l := by
  induction l with
  | nil => simp [insertFR]
  | cons y ys ih =>
      by_cases h : y.score ≤ x.score
      · simp [insertFR, h]
      · simp only [insertFR, if_neg h, List.mem_cons, ih]
        tauto

theorem mem_sortFinal (a : FinalResult) (l : List FinalResult) :
    a ∈ sortFinal l ↔ a ∈ l := by
  induction l with
  | nil => simp [sortFinal]
  | cons x xs ih => simp [sortFinal, mem_insertFR, ih]

theorem sorted_insertFR (x : FinalResult) (l : List FinalResult)
    (hl : l.Pairwise (fun a b => b.score ≤ a.score)) :
    (insertFR x l).Pairwise (fun a b => b.score ≤ a.score) := by
  induction l with
  | nil => simp [insertFR]
  | cons y ys ih =>
      by_cases h : y.score ≤ x.score
      · rw [insertFR, if_pos h]
        refine List.Pairwise.cons ?_ hl
        intro z hz
        rcases List.mem_cons.mp hz with hz | hz
        · exact hz ▸ h
        · exact le_trans (List.rel_of_pairwise_cons hl hz) h
      · rw [insertFR, if_neg h]
        refine List.Pairwise.cons ?_ (ih hl.of_cons)
        intro z hz
        rcases (mem_insertFR x z ys).mp hz with hz | hz
        · exact hz ▸ le_of_lt (lt_of_not_le h)
        · exact List.rel_of_pairwise_cons hl hz

theorem sorted_sortFinal (l : List FinalResult) :
    (sortFinal l).Pairwise (fun a b => b.score ≤ a.score) := by
  induction l with
  | nil => simp [sortFinal]
  | cons x xs ih => exact sorted_insertFR x (sortFinal xs) ih

theorem perm_insertFR (x : FinalResult) (l : List FinalResult) :
    (insertFR x l).Perm (x :: l) := by
  induction l with
  | nil => simp [insertFR]
  | cons y ys ih =>
      by_cases h : y.score ≤ x.score
      · simp [insertFR, h]
      · rw [insertFR, if_neg h]
        exact (ih.cons y).trans (List.Perm.swap x y ys)

theorem perm_sortFinal (l : List FinalResult) : (sortFinal l).Perm l := by
  induction l with
  | nil => simp [sortFinal]
  | cons x xs ih => exact (perm_insertFR x (sortFinal xs)).trans (ih.cons x)

theorem filter_insertFR_of_ne (x : FinalResult) (l : List FinalResult) (v : Nat)
    (hx : x.score ≠ v) :
    (insertFR x l).filter (fun r => r.score == v) =
      l.filter (fun r => r.score == v) := by
  induction l with
  | nil => simp [insertFR, hx]
  | cons y ys ih =>
      by_cases h : y.score ≤ x.score
      · simp [insertFR, h, hx]
      · rw [insertFR, if_neg h]
        by_cases hy : y.score = v
        · simp [List.filter_cons, hy, ih]
        · simp [List.filter_cons, hy, ih]

theorem filter_insertFR_of_eq (x : FinalResult) (l : List FinalResult) (v : Nat)
    (hx : x.score = v) :
    (insertFR x l).filter (fun r => r.score == v) =
      x :: l.filter (fun r => r.score == v) := by
  subst hx
  induction l with
  | nil => simp [insertFR]
  | cons y ys ih =>
      by_cases h : y.score ≤ x.score
      · rw [insertFR, if_pos h]
        simp [List.filter_cons]
      · have hy : y.score ≠ x.score := fun hyv => h (le_of_eq hyv)
        rw [insertFR, if_neg h]
        simp [List.filter_cons, hy, ih]

/-- Stability of the descending sort: for every score value, the entries
holding that score appear in the sorted output exactly in their original
(encounter) order. -/
theorem filter_sortFinal (l : List FinalResult) (v : Nat) :
    (sortFinal l).filter (fun r => r.score == v) =
      l.filter (fun r => r.score == v) := by
  induction l with
  | nil => simp [sortFinal]
  | cons x xs ih =>
      by_cases hx : x.score = v
      · rw [sortFinal, filter_insertFR_of_eq x (sortFinal xs) v hx, ih]
        simp [List.filter_cons, hx]
      · rw [sortFinal, filter_insertFR_of_ne x (sortFinal xs) v hx, ih]
        simp [List.filter_cons, hx]

/-! ### Step-analysis helper lemmas -/

/-- The effect of `disconnect` on one room record. -/
def dropPlayer (caller : String) (room : Room) : Room :=
  if (findKey room.players caller).isSome
  then { room with players := delKey room.players caller }
  else room

theorem disconnect_fst (rooms : Rooms) (caller : String) :
    (disconnect rooms caller).1 = rooms.map fun kv => (kv.1, dropPlayer caller kv.2) := by
  induction rooms with
  | nil => rfl
  | cons hd tl ih =>
      obtain ⟨rid, room⟩ := hd
      by_cases h : (findKey room.players caller).isSome
      · simp [disconnect, h, ih, dropPlayer]
      · simp [disconnect, h, ih, dropPlayer]

theorem findKey_disconnect (rooms : Rooms) (caller rid : String) :
    findKey (disconnect rooms caller).1 rid =
      (findKey rooms rid).map (dropPlayer caller) := by
  rw [disconnect_fst, findKey_map_value]

theorem disconnect_emissions_shape (rooms : Rooms) (caller : String) :
    ∀ em ∈ (disconnect rooms caller).2,
      em.event = "playersUpdated" ∧
      ∃ k room, (k, room) ∈ rooms ∧ em.target = Target.room k ∧
        (findKey room.players caller).isSome ∧
        em.payload = playersToJVal (delKey room.players caller) := by
  induction rooms with
  | nil => simp [disconnect]
  | cons hd tl ih =>
      obtain ⟨rid, room⟩ := hd
      intro em hmem
      by_cases h : (findKey room.players caller).isSome
      · simp only [disconnect, h, if_pos] at hmem
        rcases List.mem_append.mp hmem with hhd | htl
        · rcases List.mem_singleton.mp hhd with rfl
          exact ⟨rfl, rid, room, List.mem_cons_self _ _, rfl, h, rfl⟩
        · obtain ⟨hev, k, room', hk, htarget, hsome, hpl⟩ := ih em htl
          exact ⟨hev, k, room', List.mem_cons_of_mem _ hk, htarget, hsome, hpl⟩
      · simp only [disconnect, h, if_neg, List.nil_append] at hmem
        obtain ⟨hev, k, room', hk, htarget, hsome, hpl⟩ := ih em hmem
        exact ⟨hev, k, room', List.mem_cons_of_mem _ hk, htarget, hsome, hpl⟩

theorem disconnect_emission_of_mem (rooms : Rooms) (caller rid : String) (room : Room)
    (hfind : findKey rooms rid = some room)
    (hsome : (findKey room.players caller).isSome) :
    Emission.mk (Target.room rid) "playersUpdated"
      (playersToJVal (delKey room.players caller)) ∈ (disconnect rooms caller).2 := by
  induction rooms with
  | nil => simp [findKey] at hfind
  | cons hd tl ih =>
      obtain ⟨rid₀, room₀⟩ := hd
      by_cases hk : rid₀ = rid
      · subst hk
        rw [findKey, if_pos rfl] at hfind
        injection hfind with hfind
        subst hfind
        simp [disconnect, hsome]
      · rw [findKey, if_neg hk] at hfind
        by_cases h : (findKey room₀.players caller).isSome
        · simp only [disconnect, h, if_pos]
          exact List.mem_append_right _ (ih hfind)
        · simpa [disconnect, h] using ih hfind

/-- Running `sendQuestion` either leaves a player record untouched or
resets its answered state; it never touches the score. -/
theorem playerOf_sendQuestion (rooms : Rooms) (ridq rid c : String) (p : Player)
    (hp : playerOf rooms rid c = some p) :
    playerOf (sendQuestion rooms ridq).1 rid c = some p ∨
    playerOf (sendQuestion rooms ridq).1 rid c = some (resetP p) := by
  unfold sendQuestion
  cases hfind : findKey rooms ridq with
  | none => exact Or.inl hp
  | some room0 =>
      by_cases hend : room0.isQuizEnded
      · simp only [hend, if_true]
        exact Or.inl hp
      · simp only [hend, if_false, Bool.false_eq_true]
        cases hq : room0.questions.get? room0.currentQuestionIndex with
        | none =>
            unfold endQuizAutomatically
            rw [hfind]
            simp only [hend, if_false, Bool.false_eq_true]
            by_cases hrid : rid = ridq
            · subst hrid
              rw [playerOf_setKey_self]
              left
              simpa [playerOf, hfind] using hp
            · rw [playerOf_setKey_ne _ _ _ _ _ hrid]
              exact Or.inl hp
        | some q =>
            by_cases hrid : rid = ridq
            · subst hrid
              rw [playerOf_setKey_self]
              right
              have hpp : findKey room0.players c = some p := by
                simpa [playerOf, hfind] using hp
              simp [findKey_resetPlayers, hpp]
            · rw [playerOf_setKey_ne _ _ _ _ _ hrid]
              exact Or.inl hp

/-- Per-step characterization of a player record: across any single event
the record is untouched, removed, reset for a new question, overwritten by
a rejoin of the same connection, or updated by the player's own successful
`submitAnswer` (marked answered, score increased by one exactly when the
grading is correct). -/
theorem playerOf_step (rooms : Rooms) (caller : String) (e : Event) (rid c : String)
    (p : Player) (hp : playerOf rooms rid c = some p) :
    playerOf (step rooms caller e).1 rid c = some p ∨
    playerOf (step rooms caller e).1 rid c = none ∨
    playerOf (step rooms caller e).1 rid c = some (resetP p) ∨
    (caller = c ∧ ∃ n, e = Event.joinRoom rid n ∧
      playerOf (step rooms caller e).1 rid c =
        some { name := n, score := 0, hasAnswered := false, currentAnswer := none }) ∨
    (caller = c ∧ ∃ si room, e = Event.submitAnswer rid si ∧
      findKey rooms rid = some room ∧ room.isQuizEnded = false ∧
      findKey room.players c = some p ∧ p.hasAnswered = false ∧
      playerOf (step rooms caller e).1 rid c =
        some { p with
                 hasAnswered := true
                 currentAnswer := some si
                 score := p.score + if (gradeAnswer room si).1 then 1 else 0 }) := by
  obtain ⟨room, hroom, hpp⟩ :
      ∃ room, findKey rooms rid = some room ∧ findKey room.players c = some p := by
    unfold playerOf at hp
    cases hf : findKey rooms rid with
    | none => rw [hf] at hp; simp at hp
    | some r => rw [hf] at hp; exact ⟨r, rfl, by simpa using hp⟩
  cases e with
  | createRoom rid' =>
      by_cases hrid : rid = rid'
      · subst hrid
        right; left
        simp [step, createRoom, playerOf_setKey_self, findKey]
      · left
        simp only [step, createRoom]
        rw [playerOf_setKey_ne _ _ _ _ _ hrid]
        exact hp
  | joinRoom rid' n =>
      simp only [step, joinRoom]
      cases hf' : findKey rooms rid' with
      | none => left; exact hp
      | some room0 =>
          by_cases hrid : rid = rid'
          · subst hrid
            rw [hroom] at hf'
            injection hf' with hf'
            subst hf'
            by_cases hc : caller = c
            · subst hc
              right; right; right; left
              refine ⟨rfl, n, rfl, ?_⟩
              rw [playerOf_setKey_self]
              simp [findKey_setKey_self]
            · left
              rw [playerOf_setKey_self]
              simpa [findKey_setKey_ne _ _ _ _ (Ne.symm hc)] using hpp
          · left
            rw [playerOf_setKey_ne _ _ _ _ _ hrid]
            exact hp
  | addQuestion rid' q =>
      simp only [step, addQuestion]
      cases hf' : findKey rooms rid' with
      | none => left; exact hp
      | some room0 =>
          by_cases hh : room0.hostId = caller
          · simp only [hh, if_true]
            by_cases hrid : rid = rid'
            · subst hrid
              rw [hroom] at hf'
              injection hf' with hf'
              subst hf'
              left
              rw [playerOf_setKey_self]
              exact hpp
            · left
              rw [playerOf_setKey_ne _ _ _ _ _ hrid]
              exact hp
          · simp only [hh, if_false]
            left
            exact hp
  | startQuiz rid' =>
      simp only [step, startQuiz]
      rcases playerOf_sendQuestion rooms rid' rid c p hp with h | h
      · left; exact h
      · right; right; left; exact h
  | submitAnswer rid' si =>
      simp only [step, submitAnswer]
      by_cases hempty : rid' = ""
      · simp only [hempty, if_pos]
        left; exact hp
      · simp only [if_neg hempty]
        cases hf' : findKey rooms rid' with
        | none => left; exact hp
        | some room0 =>
            dsimp only
            cases hfp : findKey room0.players caller with
            | none => left; exact hp
            | some player =>
                dsimp only
                by_cases hans : player.hasAnswered = true
                · rw [if_pos hans]
                  left; exact hp
                · rw [if_neg hans]
                  by_cases hend : room0.isQuizEnded = true
                  · rw [if_pos hend]
                    left; exact hp
                  · rw [if_neg hend]
                    by_cases hrid : rid = rid'
                    · subst hrid
                      rw [hroom] at hf'
                      injection hf' with hf'
                      subst hf'
                      by_cases hc : caller = c
                      · subst hc
                        rw [hpp] at hfp
                        injection hfp with hfp
                        subst hfp
                        right; right; right; right
                        refine ⟨rfl, si, room, rfl, hroom,
                          by simpa using hend, hpp, by simpa using hans, ?_⟩
                        rw [playerOf_setKey_self]
                        simp only [findKey_setKey_self]
                        by_cases hg : (gradeAnswer room si).1 <;> simp [hg]
                      · left
                        rw [playerOf_setKey_self]
                        simpa [findKey_setKey_ne _ _ _ _ (Ne.symm hc)] using hpp
                    · left
                      rw [playerOf_setKey_ne _ _ _ _ _ hrid]
                      exact hp
  | nextQuestion rid' =>
      simp only [step, nextQuestion]
      cases hf' : findKey rooms rid' with
      | none => left; exact hp
      | some room0 =>
          dsimp only
          by_cases hh : room0.hostId = caller
          · rw [if_pos hh]
            by_cases hend : room0.isQuizEnded = true
            · rw [if_pos hend]
              left; exact hp
            · rw [if_neg hend]
              by_cases hrid : rid = rid'
              · subst hrid
                rw [hroom] at hf'
                injection hf' with hf'
                subst hf'
                have hmid : playerOf (setKey rooms rid
                    { room with
                        currentQuestionIndex := room.currentQuestionIndex + 1
                        players := resetPlayers room.players }) rid c
                      = some (resetP p) := by
                  rw [playerOf_setKey_self]
                  simp [findKey_resetPlayers, hpp]
                rcases playerOf_sendQuestion _ rid rid c (resetP p) hmid with h | h
                · right; right; left; exact h
                · right; right; left
                  rw [h]
                  rfl
              · have hmid : playerOf (setKey rooms rid'
                    { room0 with
                        currentQuestionIndex := room0.currentQuestionIndex + 1
                        players := resetPlayers room0.players }) rid c = some p := by
                  rw [playerOf_setKey_ne _ _ _ _ _ hrid]
                  exact hp
                rcases playerOf_sendQuestion _ rid' rid c p hmid with h | h
                · left; exact h
                · right; right; left; exact h
          · rw [if_neg hh]
            left; exact hp
  | endQuiz rid' =>
      simp only [step, endQuiz]
      cases hf' : findKey rooms rid' with
      | none => left; exact hp
      | some room0 =>
          dsimp only
          by_cases hh : room0.hostId = caller
          · rw [if_pos hh]
            by_cases hend : room0.isQuizEnded = true
            · rw [if_pos hend]
              left; exact hp
            · rw [if_neg hend]
              by_cases hrid : rid = rid'
              · subst hrid
                rw [hroom] at hf'
                injection hf' with hf'
                subst hf'
                left
                rw [playerOf_setKey_self]
                exact hpp
              · left
                rw [playerOf_setKey_ne _ _ _ _ _ hrid]
                exact hp
          · rw [if_neg hh]
            left; exact hp
  | sendManualQuestion rid' q o ci =>
      simp only [step, sendManualQuestion]
      by_cases hempty : rid' = ""
      · simp only [hempty, if_pos]
        left; exact hp
      · simp only [if_neg hempty]
        cases hf' : findKey rooms rid' with
        | none => left; exact hp
        | some room0 =>
            dsimp only
            by_cases hh : room0.hostId = caller
            · rw [if_pos hh]
              by_cases hend : room0.isQuizEnded = true
              · rw [if_pos hend]
                left; exact hp
              · rw [if_neg hend]
                by_cases hval : q = "" ∨ o.length ≠ 4 ∨ ci < 0 ∨ 3 < ci
                · rw [if_pos hval]
                  left; exact hp
                · rw [if_neg hval]
                  by_cases hrid : rid = rid'
                  · subst hrid
                    rw [hroom] at hf'
                    injection hf' with hf'
                    subst hf'
                    right; right; left
                    rw [playerOf_setKey_self]
                    simp [findKey_resetPlayers, hpp]
                  · left
                    rw [playerOf_setKey_ne _ _ _ _ _ hrid]
                    exact hp
            · rw [if_neg hh]
              left; exact hp
  | getQuizStatus rid' =>
      simp only [step, getQuizStatus]
      cases hf' : findKey rooms rid' with
      | none => left; exact hp
      | some room0 => left; exact hp
  | disconnect =>
      simp only [step]
      by_cases hc : caller = c
      · subst hc
        right; left
        have hcont : (findKey room.players caller).isSome := by simp [hpp]
        simp [playerOf, findKey_disconnect, hroom, dropPlayer, hcont, findKey_delKey_self]
      · left
        by_cases hcont : (findKey room.players caller).isSome
        · simp [playerOf, findKey_disconnect, hroom, dropPlayer, hcont,
            findKey_delKey_ne _ _ _ (Ne.symm hc), hpp]
        · simp [playerOf, findKey_disconnect, hroom, dropPlayer, hcont, hpp]

/-- `sendQuestion` never touches a room's `currentCorrectAnswer` (it only
resets players or raises the ended flag). -/
theorem cca_sendQuestion (rooms : Rooms) (ridq rid : String) (room : Room)
    (hroom : findKey rooms rid = some room) :
    ∃ room', findKey (sendQuestion rooms ridq).1 rid = some room' ∧
      room'.currentCorrectAnswer = room.currentCorrectAnswer := by
  unfold sendQuestion
  cases hfq : findKey rooms ridq with
  | none => exact ⟨room, hroom, rfl⟩
  | some room0 =>
      dsimp only
      by_cases hend : room0.isQuizEnded = true
      · rw [if_pos hend]
        exact ⟨room, hroom, rfl⟩
      · rw [if_neg hend]
        cases hq : room0.questions.get? room0.currentQuestionIndex with
        | none =>
            dsimp only
            unfold endQuizAutomatically
            rw [hfq]
            dsimp only
            rw [if_neg hend]
            by_cases hrid : rid = ridq
            · subst hrid
              rw [hroom] at hfq
              injection hfq with hfq
              subst hfq
              exact ⟨_, findKey_setKey_self _ _ _, rfl⟩
            · rw [findKey_setKey_ne _ _ _ _ (fun h => hrid h)]
              exact ⟨room, hroom, rfl⟩
        | some q =>
            dsimp only
            by_cases hrid : rid = ridq
            · subst hrid
              rw [hroom] at hfq
              injection hfq with hfq
              subst hfq
              exact ⟨_, findKey_setKey_self _ _ _, rfl⟩
            · rw [findKey_setKey_ne _ _ _ _ (fun h => hrid h)]
              exact ⟨room, hroom, rfl⟩

/-- Per-step preservation of `currentCorrectAnswer`: apart from a
`createRoom` overwrite of the same id (which destroys the room and makes a
fresh one), every event either keeps the stored correct answer or — only
for a successful `sendManualQuestion` on that room — replaces it with the
new question's `correctIndex`. It is never cleared back to undefined. -/
theorem cca_step (rooms : Rooms) (caller : String) (e : Event)
    (rid : String) (room : Room) (hroom : findKey rooms rid = some room)
    (hnc : e ≠ Event.createRoom rid) :
    ∃ room', findKey (step rooms caller e).1 rid = some room' ∧
      (room'.currentCorrectAnswer = room.currentCorrectAnswer ∨
       ∃ q o ci, e = Event.sendManualQuestion rid q o ci ∧
         room'.currentCorrectAnswer = some ci) := by
  cases e with
  | createRoom rid' =>
      have hrid : rid ≠ rid' := fun h => hnc (by rw [h])
      simp only [step, createRoom]
      rw [findKey_setKey_ne _ _ _ _ hrid]
      exact ⟨room, hroom, Or.inl rfl⟩
  | joinRoom rid' n =>
      simp only [step, joinRoom]
      cases hf' : findKey rooms rid' with
      | none => exact ⟨room, hroom, Or.inl rfl⟩
      | some room0 =>
          dsimp only
          by_cases hrid : rid = rid'
          · subst hrid
            rw [hroom] at hf'
            injection hf' with hf'
            subst hf'
            exact ⟨_, findKey_setKey_self _ _ _, Or.inl rfl⟩
          · rw [findKey_setKey_ne _ _ _ _ (fun h => hrid h)]
            exact ⟨room, hroom, Or.inl rfl⟩
  | addQuestion rid' q =>
      simp only [step, addQuestion]
      cases hf' : findKey rooms rid' with
      | none => exact ⟨room, hroom, Or.inl rfl⟩
      | some room0 =>
          dsimp only
          by_cases hh : room0.hostId = caller
          · rw [if_pos hh]
            by_cases hrid : rid = rid'
            · subst hrid
              rw [hroom] at hf'
              injection hf' with hf'
              subst hf'
              exact ⟨_, findKey_setKey_self _ _ _, Or.inl rfl⟩
            · rw [findKey_setKey_ne _ _ _ _ (fun h => hrid h)]
              exact ⟨room, hroom, Or.inl rfl⟩
          · rw [if_neg hh]
            exact ⟨room, hroom, Or.inl rfl⟩
  | startQuiz rid' =>
      simp only [step, startQuiz]
      obtain ⟨room', hfind, hcca⟩ := cca_sendQuestion rooms rid' rid room hroom
      exact ⟨room', hfind, Or.inl hcca⟩
  | submitAnswer rid' si =>
      simp only [step, submitAnswer]
      by_cases hempty : rid' = ""
      · rw [if_pos hempty]
        exact ⟨room, hroom, Or.inl rfl⟩
      · rw [if_neg hempty]
        cases hf' : findKey rooms rid' with
        | none => exact ⟨room, hroom, Or.inl rfl⟩
        | some room0 =>
            dsimp only
            cases hfp : findKey room0.players caller with
            | none => exact ⟨room, hroom, Or.inl rfl⟩
            | some player =>
                dsimp only
                by_cases hans : player.hasAnswered = true
                · rw [if_pos hans]
                  exact ⟨room, hroom, Or.inl rfl⟩
                · rw [if_neg hans]
                  by_cases hend : room0.isQuizEnded = true
                  · rw [if_pos hend]
                    exact ⟨room, hroom, Or.inl rfl⟩
                  · rw [if_neg hend]
                    by_cases hrid : rid = rid'
                    · subst hrid
                      rw [hroom] at hf'
                      injection hf' with hf'
                      subst hf'
                      exact ⟨_, findKey_setKey_self _ _ _, Or.inl rfl⟩
                    · rw [findKey_setKey_ne _ _ _ _ (fun h => hrid h)]
                      exact ⟨room, hroom, Or.inl rfl⟩
  | nextQuestion rid' =>
      simp only [step, nextQuestion]
      cases hf' : findKey rooms rid' with
      | none => exact ⟨room, hroom, Or.inl rfl⟩
      | some room0 =>
          dsimp only
          by_cases hh : room0.hostId = caller
          · rw [if_pos hh]
            by_cases hend : room0.isQuizEnded = true
            · rw [if_pos hend]
              exact ⟨room, hroom, Or.inl rfl⟩
            · rw [if_neg hend]
              by_cases hrid : rid = rid'
              · subst hrid
                rw [hroom] at hf'
                injection hf' with hf'
                subst hf'
                obtain ⟨room', hfind, hcca⟩ := cca_sendQuestion _ rid rid _
                  (findKey_setKey_self rooms rid _)
                exact ⟨room', hfind, Or.inl hcca⟩
              · obtain ⟨room', hfind, hcca⟩ := cca_sendQuestion
                  (setKey rooms rid'
                    { room0 with
                        currentQuestionIndex := room0.currentQuestionIndex + 1
                        players := resetPlayers room0.players }) rid' rid room
                  (by rw [findKey_setKey_ne _ _ _ _ (fun h => hrid h)]; exact hroom)
                exact ⟨room', hfind, Or.inl hcca⟩
          · rw [if_neg hh]
            exact ⟨room, hroom, Or.inl rfl⟩
  | endQuiz rid' =>
      simp only [step, endQuiz]
      cases hf' : findKey rooms rid' with
      | none => exact ⟨room, hroom, Or.inl rfl⟩
      | some room0 =>
          dsimp only
          by_cases hh : room0.hostId = caller
          · rw [if_pos hh]
            by_cases hend : room0.isQuizEnded = true
            · rw [if_pos hend]
              exact ⟨room, hroom, Or.inl rfl⟩
            · rw [if_neg hend]
              by_cases hrid : rid = rid'
              · subst hrid
                rw [hroom] at hf'
                injection hf' with hf'
                subst hf'
                exact ⟨_, findKey_setKey_self _ _ _, Or.inl rfl⟩
              · rw [findKey_setKey_ne _ _ _ _ (fun h => hrid h)]
                exact ⟨room, hroom, Or.inl rfl⟩
          · rw [if_neg hh]
            exact ⟨room, hroom, Or.inl rfl⟩
  | sendManualQuestion rid' q o ci =>
      simp only [step, sendManualQuestion]
      by_cases hempty : rid' = ""
      · rw [if_pos hempty]
        exact ⟨room, hroom, Or.inl rfl⟩
      · rw [if_neg hempty]
        cases hf' : findKey rooms rid' with
        | none => exact ⟨room, hroom, Or.inl rfl⟩
        | some room0 =>
            dsimp only
            by_cases hh : room0.hostId = caller
            · rw [if_pos hh]
              by_cases hend : room0.isQuizEnded = true
              · rw [if_pos hend]
                exact ⟨room, hroom, Or.inl rfl⟩
              · rw [if_neg hend]
                by_cases hval : q = "" ∨ o.length ≠ 4 ∨ ci < 0 ∨ 3 < ci
                · rw [if_pos hval]
                  exact ⟨room, hroom, Or.inl rfl⟩
                · rw [if_neg hval]
                  by_cases hrid : rid = rid'
                  · subst hrid
                    exact ⟨_, findKey_setKey_self _ _ _, Or.inr ⟨q, o, ci, rfl, rfl⟩⟩
                  · rw [findKey_setKey_ne _ _ _ _ (fun h => hrid h)]
                    exact ⟨room, hroom, Or.inl rfl⟩
            · rw [if_neg hh]
              exact ⟨room, hroom, Or.inl rfl⟩
  | getQuizStatus rid' =>
      simp only [step, getQuizStatus]
      cases hf' : findKey rooms rid' with
      | none => exact ⟨room, hroom, Or.inl rfl⟩
      | some room0 => exact ⟨room, hroom, Or.inl rfl⟩
  | disconnect =>
      simp only [step]
      refine ⟨dropPlayer caller room, ?_, Or.inl ?_⟩
      · rw [findKey_disconnect, hroom]
        rfl
      · by_cases hcont : (findKey room.players caller).isSome <;>
          simp [dropPlayer, hcont]

/-! ### Claim theorems -/

/-- Sample room for witnesses: host "h", one fresh player "p", one
pre-loaded question whose correct index is 2, quiz not ended. -/
def wRoom : Room :=
  { hostId := "h"
    currentQuestionIndex := 0
    questions := [{ question := "Q", options := ["a", "b", "c", "d"], correctIndex := 2 }]
    players := [("p", { name := "P", score := 0, hasAnswered := false, currentAnswer := none })]
    currentQuestion := none
    currentCorrectAnswer := none
    isActive := false
    isQuizEnded := false
    totalQuestions := 0 }

/-- Sample registry holding `wRoom` under id "r". -/
def wRooms : Rooms := [("r", wRoom)]

/-- Sample registry holding `wRoom` under the empty-string id, reachable
via `createRoom` with an empty `roomId`. -/
def wRoomsEmpty : Rooms := [("", wRoom)]

/-- Sample ended room and registry. -/
def wRoomEnded : Room := { wRoom with isQuizEnded := true }

/-- Registry holding the ended sample room under id "re". -/
def wRoomsEnded : Rooms := [("re", wRoomEnded)]

/-- C2 (amended): `submitAnswer` evaluates its guards in source order —
(1) room id empty (falsy) or room absent, (2) caller not a player,
(3) caller already answered, (4) quiz ended — each failure emitting one
`errorMessage` to the caller and leaving the registry unchanged; only when
all guards pass is the caller marked answered, graded, and the pair of
`answerResult` / `playersUpdated` messages emitted. -/
theorem submitAnswer_guard_order (rooms : Rooms) (caller rid : String) (si : Int) :
    ((rid = "" ∨ findKey rooms rid = none) →
      submitAnswer rooms caller rid si = (rooms, [errTo "Room not found"])) ∧
    (∀ room, rid ≠ "" → findKey rooms rid = some room →
      findKey room.players caller = none →
      submitAnswer rooms caller rid si = (rooms, [errTo "Player not found in room"])) ∧
    (∀ room player, rid ≠ "" → findKey rooms rid = some room →
      findKey room.players caller = some player → player.hasAnswered = true →
      submitAnswer rooms caller rid si =
        (rooms, [errTo "You have already answered this question"])) ∧
    (∀ room player, rid ≠ "" → findKey rooms rid = some room →
      findKey room.players caller = some player → player.hasAnswered = false →
      room.isQuizEnded = true →
      submitAnswer rooms caller rid si = (rooms, [errTo "Quiz has ended"])) ∧
    (∀ room player, rid ≠ "" → findKey rooms rid = some room →
      findKey room.players caller = some player → player.hasAnswered = false →
      room.isQuizEnded = false →
      playerOf (submitAnswer rooms caller rid si).1 rid caller =
        some { player with
                 hasAnswered := true
                 currentAnswer := some si
                 score := player.score + if (gradeAnswer room si).1 then 1 else 0 } ∧
      (submitAnswer rooms caller rid si).2 =
        [⟨Target.caller, "answerResult",
           .obj [("correct", .bool (gradeAnswer room si).1),
                 ("correctIndex", .num (gradeAnswer room si).2),
                 ("currentScore",
                   .num (player.score + if (gradeAnswer room si).1 then 1 else 0)),
                 ("questionNumber", .num (room.currentQuestionIndex + 1))]⟩,
         ⟨Target.room rid, "playersUpdated",
           playersSnapshotToJVal (setKey room.players caller
             { player with
                 hasAnswered := true
                 currentAnswer := some si
                 score := player.score + if (gradeAnswer room si).1 then 1 else 0 })⟩]) := by
  refine ⟨?_, ?_, ?_, ?_, ?_⟩
  · rintro (h | h)
    · rw [submitAnswer, if_pos h]
    · by_cases he : rid = ""
      · rw [submitAnswer, if_pos he]
      · rw [submitAnswer, if_neg he, h]
  · intro room hne hroom hp
    rw [submitAnswer, if_neg hne, hroom]
    dsimp only
    rw [hp]
  · intro room player hne hroom hp hans
    rw [submitAnswer, if_neg hne, hroom]
    dsimp only
    rw [hp]
    dsimp only
    rw [if_pos hans]
  · intro room player hne hroom hp hans hend
    rw [submitAnswer, if_neg hne, hroom]
    dsimp only
    rw [hp]
    dsimp only
    rw [if_neg (by simp [hans]), if_pos hend]
  · intro room player hne hroom hp hans hend
    rw [submitAnswer, if_neg hne, hroom]
    dsimp only
    rw [hp]
    dsimp only
    rw [if_neg (by simp [hans]), if_neg (by simp [hend])]
    constructor
    · rw [playerOf_setKey_self, findKey_setKey_self]
      by_cases hg : (gradeAnswer room si).1 <;> simp [hg]
    · by_cases hg : (gradeAnswer room si).1 <;> simp [hg]

/-- C2 witness: concrete successful submission through all four guards. -/
theorem submitAnswer_guard_order_witness :
    playerOf (submitAnswer wRooms "p" "r" 2).1 "r" "p" =
      some { name := "P", score := 1, hasAnswered := true, currentAnswer := some 2 } ∧
    (submitAnswer wRooms "p" "r" 2).2 =
      [⟨Target.caller, "answerResult",
         .obj [("correct", .bool true), ("correctIndex", .num 2),
               ("currentScore", .num 1), ("questionNumber", .num 1)]⟩,
       ⟨Target.room "r", "playersUpdated",
         playersSnapshotToJVal
           [("p", { name := "P", score := 1, hasAnswered := true, currentAnswer := some 2 })]⟩] :=
  (submitAnswer_guard_order wRooms "p" "r" 2).2.2.2.2 wRoom
    { name := "P", score := 0, hasAnswered := false, currentAnswer := none }
    (by decide) rfl rfl rfl rfl

/-- C2 counterexample: the room stored under the empty-string id exists and
all four guards of the claim pass for player "p" (known player, not yet
answered, quiz not ended), yet `submitAnswer` emits "Room not found" and
does not mark the player answered, because the first guard also rejects a
falsy (empty) room id. -/
theorem submitAnswer_empty_roomId_cex :
    findKey wRoomsEmpty "" = some wRoom ∧
    findKey wRoom.players "p" =
      some { name := "P", score := 0, hasAnswered := false, currentAnswer := none } ∧
    wRoom.isQuizEnded = false ∧
    submitAnswer wRoomsEmpty "p" "" 2 = (wRoomsEmpty, [errTo "Room not found"]) ∧
    playerOf (submitAnswer wRoomsEmpty "p" "" 2).1 "" "p" =
      some { name := "P", score := 0, hasAnswered := false, currentAnswer := none } :=
  ⟨rfl, rfl, rfl, rfl, rfl⟩

/-- C7 (amended): for a room reachable by the handler lookup (non-empty id
and present in the registry), a host call with an invalid payload (empty
question text, option count other than 4, or correct index outside 0..3)
is rejected with `errorMessage "Invalid question format"` and the registry
is left entirely unchanged: no `newQuestion` broadcast, and every room and
player field keeps its prior value. -/
theorem sendManualQuestion_invalid_rejected (rooms : Rooms)
    (caller rid qtext : String) (opts : List String) (ci : Int) (room : Room)
    (hne : rid ≠ "") (hroom : findKey rooms rid = some room)
    (hhost : room.hostId = caller) (hend : room.isQuizEnded = false)
    (hbad : qtext = "" ∨ opts.length ≠ 4 ∨ ci < 0 ∨ 3 < ci) :
    sendManualQuestion rooms caller rid qtext opts ci =
      (rooms, [errTo "Invalid question format"]) := by
  rw [sendManualQuestion, if_neg hne, hroom]
  dsimp only
  rw [if_pos hhost, if_neg (by simp [hend]), if_pos hbad]

/-- C7 witness: concrete invalid payload (`correctIndex = 4`) rejected
with the room untouched. -/
theorem sendManualQuestion_invalid_rejected_witness :
    sendManualQuestion wRooms "h" "r" "Q" ["a", "b", "c", "d"] 4 =
      (wRooms, [errTo "Invalid question format"]) :=
  sendManualQuestion_invalid_rejected wRooms "h" "r" "Q" ["a", "b", "c", "d"] 4 wRoom
    (by decide) rfl rfl rfl (by decide)

/-- C7 counterexample: a room stored under the empty-string id is an
existing, non-ended room whose host sends an invalid payload
(`correctIndex = 4`), yet the caller receives "Room not found" instead of
"Invalid question format": the falsy room-id guard fires first. -/
theorem sendManualQuestion_empty_roomId_cex :
    findKey wRoomsEmpty "" = some wRoom ∧
    wRoom.hostId = "h" ∧
    wRoom.isQuizEnded = false ∧
    sendManualQuestion wRoomsEmpty "h" "" "Q" ["a", "b", "c", "d"] 4 =
      (wRoomsEmpty, [errTo "Room not found"]) ∧
    (sendManualQuestion wRoomsEmpty "h" "" "Q" ["a", "b", "c", "d"] 4).2 ≠
      [errTo "Invalid question format"] := by
  refine ⟨rfl, rfl, rfl, rfl, ?_⟩
  rw [show (sendManualQuestion wRoomsEmpty "h" "" "Q" ["a", "b", "c", "d"] 4).2 =
        [errTo "Room not found"] from rfl]
  intro h
  simp [errTo] at h

/-- C3 (amended): once a room's `isQuizEnded` is true, `submitAnswer`,
`nextQuestion`, `endQuiz` and `sendManualQuestion` all leave the registry
(hence every score and the cursor) unchanged; `endQuiz` and
`sendManualQuestion` always answer the caller with an `errorMessage`,
`nextQuestion` answers with one exactly when the caller is the host
(silent no-op otherwise), and `submitAnswer` is not silent either: it
answers with an `errorMessage` (e.g. "Quiz has ended" for a known player
who has not answered yet). -/
theorem ended_room_frozen (rooms : Rooms) (caller rid : String) (room : Room)
    (hroom : findKey rooms rid = some room) (hend : room.isQuizEnded = true) :
    (∀ si, (submitAnswer rooms caller rid si).1 = rooms ∧
      ∃ m, (submitAnswer rooms caller rid si).2 = [errTo m]) ∧
    ((nextQuestion rooms caller rid).1 = rooms ∧
      (room.hostId = caller →
        (nextQuestion rooms caller rid).2 = [errTo "Quiz has already ended"]) ∧
      (room.hostId ≠ caller → (nextQuestion rooms caller rid).2 = [])) ∧
    ((endQuiz rooms caller rid).1 = rooms ∧
      ∃ m, (endQuiz rooms caller rid).2 = [errTo m]) ∧
    (∀ qtext opts ci,
      (sendManualQuestion rooms caller rid qtext opts ci).1 = rooms ∧
      ∃ m, (sendManualQuestion rooms caller rid qtext opts ci).2 = [errTo m]) := by
  refine ⟨?_, ?_, ?_, ?_⟩
  · intro si
    by_cases hne : rid = ""
    · rw [submitAnswer, if_pos hne]
      exact ⟨rfl, "Room not found", rfl⟩
    · rw [submitAnswer, if_neg hne, hroom]
      dsimp only
      cases hp : findKey room.players caller with
      | none => exact ⟨rfl, "Player not found in room", rfl⟩
      | some player =>
          dsimp only
          by_cases hans : player.hasAnswered = true
          · rw [if_pos hans]
            exact ⟨rfl, "You have already answered this question", rfl⟩
          · rw [if_neg hans, if_pos hend]
            exact ⟨rfl, "Quiz has ended", rfl⟩
  · rw [nextQuestion, hroom]
    dsimp only
    by_cases hh : room.hostId = caller
    · rw [if_pos hh, if_pos hend]
      exact ⟨rfl, fun _ => rfl, fun hne => absurd hh hne⟩
    · rw [if_neg hh]
      exact ⟨rfl, fun h => absurd h hh, fun _ => rfl⟩
  · rw [endQuiz, hroom]
    dsimp only
    by_cases hh : room.hostId = caller
    · rw [if_pos hh, if_pos hend]
      exact ⟨rfl, "Quiz has already ended", rfl⟩
    · rw [if_neg hh]
      exact ⟨rfl, "Only the host can end the quiz", rfl⟩
  · intro qtext opts ci
    by_cases hne : rid = ""
    · rw [sendManualQuestion, if_pos hne]
      exact ⟨rfl, "Room not found", rfl⟩
    · rw [sendManualQuestion, if_neg hne, hroom]
      dsimp only
      by_cases hh : room.hostId = caller
      · rw [if_pos hh, if_pos hend]
        exact ⟨rfl, "Quiz has already ended", rfl⟩
      · rw [if_neg hh]
        exact ⟨rfl, "Only the host can send questions", rfl⟩

/-- C3 witness: in the concrete ended room, every relevant operation
leaves the registry unchanged and answers with an error. -/
theorem ended_room_frozen_witness :
    ((submitAnswer wRoomsEnded "p" "re" 1).1 = wRoomsEnded ∧
      ∃ m, (submitAnswer wRoomsEnded "p" "re" 1).2 = [errTo m]) ∧
    ((endQuiz wRoomsEnded "h" "re").1 = wRoomsEnded ∧
      ∃ m, (endQuiz wRoomsEnded "h" "re").2 = [errTo m]) :=
  ⟨(ended_room_frozen wRoomsEnded "p" "re" wRoomEnded rfl rfl).1 1,
   (ended_room_frozen wRoomsEnded "h" "re" wRoomEnded rfl rfl).2.2.1⟩

/-- C3 counterexample: the claim says the ended-quiz check of
`submitAnswer` is a silent no-op with no message to the caller; in fact a
known, not-yet-answered player submitting to the concrete ended room
receives `errorMessage "Quiz has ended"`. -/
theorem ended_submitAnswer_not_silent :
    findKey wRoomsEnded "re" = some wRoomEnded ∧
    wRoomEnded.isQuizEnded = true ∧
    findKey wRoomEnded.players "p" =
      some { name := "P", score := 0, hasAnswered := false, currentAnswer := none } ∧
    (submitAnswer wRoomsEnded "p" "re" 1).2 = [errTo "Quiz has ended"] ∧
    (submitAnswer wRoomsEnded "p" "re" 1).2 ≠ [] := by
  refine ⟨rfl, rfl, rfl, rfl, ?_⟩
  rw [show (submitAnswer wRoomsEnded "p" "re" 1).2 = [errTo "Quiz has ended"] from rfl]
  simp

/-- C6: a successful `sendManualQuestion` (all handler guards pass)
advances the cursor by exactly 1 when a question was already active and
leaves it unchanged otherwise; stores the correct answer and a public
trimmed question view; sets `isActive`; resets every player's answered
state; and broadcasts exactly one `newQuestion` with the public view to
the whole room. -/
theorem sendManualQuestion_success (rooms : Rooms) (caller rid qtext : String)
    (opts : List String) (ci : Int) (room : Room)
    (hne : rid ≠ "") (hroom : findKey rooms rid = some room)
    (hhost : room.hostId = caller) (hend : room.isQuizEnded = false)
    (hq : qtext ≠ "") (hlen : opts.length = 4) (hlo : 0 ≤ ci) (hhi : ci ≤ 3) :
    ∃ room',
      findKey (sendManualQuestion rooms caller rid qtext opts ci).1 rid = some room' ∧
      room'.currentQuestionIndex =
        (if room.isActive then room.currentQuestionIndex + 1
         else room.currentQuestionIndex) ∧
      room'.currentCorrectAnswer = some ci ∧
      room'.currentQuestion = some
        { question := qtext.trim
          options := opts.map String.trim
          index := room'.currentQuestionIndex
          questionNumber := room'.currentQuestionIndex + 1 } ∧
      room'.isActive = true ∧
      (∀ c, findKey room'.players c = (findKey room.players c).map resetP) ∧
      room'.hostId = room.hostId ∧
      room'.questions = room.questions ∧
      room'.isQuizEnded = room.isQuizEnded ∧
      (sendManualQuestion rooms caller rid qtext opts ci).2 =
        [⟨Target.room rid, "newQuestion",
           questionDataToJVal
             { question := qtext.trim
               options := opts.map String.trim
               index := room'.currentQuestionIndex
               questionNumber := room'.currentQuestionIndex + 1 }⟩] := by
  have hval : ¬(qtext = "" ∨ opts.length ≠ 4 ∨ ci < 0 ∨ 3 < ci) := by
    push_neg
    exact ⟨hq, hlen, hlo, hhi⟩
  rw [sendManualQuestion, if_neg hne, hroom]
  dsimp only
  rw [if_pos hhost, if_neg (by simp [hend]), if_neg hval]
  refine ⟨_, findKey_setKey_self _ _ _, rfl, rfl, rfl, rfl, ?_, rfl, rfl, rfl, rfl⟩
  intro c
  exact findKey_resetPlayers room.players c

/-- C6 witness: first manual question on the sample room (no question
active, cursor stays at 0). -/
theorem sendManualQuestion_success_witness :
    ∃ room',
      findKey (sendManualQuestion wRooms "h" "r" " MQ " ["1 ", " 2", "3", "4"] 3).1 "r" =
        some room' ∧
      room'.currentQuestionIndex =
        (if wRoom.isActive then wRoom.currentQuestionIndex + 1
         else wRoom.currentQuestionIndex) ∧
      room'.currentCorrectAnswer = some 3 ∧
      room'.currentQuestion = some
        { question := " MQ ".trim
          options := ["1 ", " 2", "3", "4"].map String.trim
          index := room'.currentQuestionIndex
          questionNumber := room'.currentQuestionIndex + 1 } ∧
      room'.isActive = true ∧
      (∀ c, findKey room'.players c = (findKey wRoom.players c).map resetP) ∧
      room'.hostId = wRoom.hostId ∧
      room'.questions = wRoom.questions ∧
      room'.isQuizEnded = wRoom.isQuizEnded ∧
      (sendManualQuestion wRooms "h" "r" " MQ " ["1 ", " 2", "3", "4"] 3).2 =
        [⟨Target.room "r", "newQuestion",
           questionDataToJVal
             { question := " MQ ".trim
               options := ["1 ", " 2", "3", "4"].map String.trim
               index := room'.currentQuestionIndex
               questionNumber := room'.currentQuestionIndex + 1 }⟩] :=
  sendManualQuestion_success wRooms "h" "r" " MQ " ["1 ", " 2", "3", "4"] 3 wRoom
    (by decide) rfl rfl rfl (by decide) rfl (by decide) (by decide)

/-- The claim-side description of a `quizEnded` results list, following the
spec's words: sorted by descending score with ties in encounter order
(stated as: for every score value, filtering the sorted output yields the
original encounter-ordered sublist), and for every entry
`totalQuestions = total` and `percentage = round(100 * score / total)`. -/
def resultsMatchSpec (results : List FinalResult) (built : List FinalResult)
    (total : Nat) : Prop :=
  results = sortFinal built ∧
  results.Pairwise (fun a b => b.score ≤ a.score) ∧
  (∀ v, results.filter (fun r => r.score == v) = built.filter (fun r => r.score == v)) ∧
  ∀ r ∈ results, r.totalQuestions = total ∧
    r.percentage = jsRound (100 * (r.score : ℚ) / (total : ℚ))

/-- C4: both termination procedures set `isQuizEnded`, broadcast one
`quizEnded` message with `endedBy` "host" (explicit `endQuiz`,
`totalQuestions = questionIndex + 1`) or "automatic" (exhaustion,
`totalQuestions = questionIndex`), and their results lists are stably
sorted by descending score with each entry's `percentage` equal to
`round(100 * score / totalQuestions)`; exhaustion is exactly the
`sendQuestion` dispatch finding no question at the cursor. -/
theorem quiz_termination_results (rooms : Rooms) (caller rid : String) (room : Room)
    (hroom : findKey rooms rid = some room) (hend : room.isQuizEnded = false) :
    (room.hostId = caller →
      (endQuiz rooms caller rid).1 = setKey rooms rid { room with isQuizEnded := true } ∧
      (endQuiz rooms caller rid).2 =
        [⟨Target.room rid, "quizEnded",
           quizEndedPayload
             (sortFinal (room.players.map (finalResultHost room.currentQuestionIndex)))
             (room.currentQuestionIndex + 1) "host"⟩] ∧
      resultsMatchSpec
        (sortFinal (room.players.map (finalResultHost room.currentQuestionIndex)))
        (room.players.map (finalResultHost room.currentQuestionIndex))
        (room.currentQuestionIndex + 1)) ∧
    ((endQuizAutomatically rooms rid).1 =
        setKey rooms rid { room with isQuizEnded := true } ∧
      (endQuizAutomatically rooms rid).2 =
        [⟨Target.room rid, "quizEnded",
           quizEndedPayload
             (sortFinal (room.players.map (finalResultAuto room.currentQuestionIndex)))
             room.currentQuestionIndex "automatic"⟩] ∧
      resultsMatchSpec
        (sortFinal (room.players.map (finalResultAuto room.currentQuestionIndex)))
        (room.players.map (finalResultAuto room.currentQuestionIndex))
        room.currentQuestionIndex) ∧
    (room.questions.get? room.currentQuestionIndex = none →
      sendQuestion rooms rid = endQuizAutomatically rooms rid) := by
  refine ⟨?_, ?_, ?_⟩
  · intro hhost
    rw [endQuiz, hroom]
    dsimp only
    rw [if_pos hhost, if_neg (by simp [hend])]
    refine ⟨rfl, rfl, rfl, sorted_sortFinal _, fun v => filter_sortFinal _ v, ?_⟩
    intro r hr
    rw [mem_sortFinal] at hr
    obtain ⟨kv, _, rfl⟩ := List.mem_map.mp hr
    refine ⟨rfl, ?_⟩
    simp only [finalResultHost]
    rw [if_pos (Nat.zero_le _)]
    unfold jsRound
    congr 1
    push_cast
    ring
  · rw [endQuizAutomatically, hroom]
    dsimp only
    rw [if_neg (by simp [hend])]
    refine ⟨rfl, rfl, rfl, sorted_sortFinal _, fun v => filter_sortFinal _ v, ?_⟩
    intro r hr
    rw [mem_sortFinal] at hr
    obtain ⟨kv, _, rfl⟩ := List.mem_map.mp hr
    refine ⟨rfl, ?_⟩
    simp only [finalResultAuto]
    by_cases hpos : 0 < room.currentQuestionIndex
    · rw [if_pos hpos]
      unfold jsRound
      congr 1
      ring
    · have hz : room.currentQuestionIndex = 0 := by omega
      rw [if_neg hpos, hz]
      simp [jsRound]
  · intro hexh
    rw [sendQuestion, hroom]
    dsimp only
    rw [if_neg (by simp [hend]), hexh]

/-- C4 witness: host ends the sample quiz after a tie; percentages and
the stable descending sort are exercised on a concrete room. -/
theorem quiz_termination_results_witness :
    (endQuiz wRooms "h" "r").1 = setKey wRooms "r" { wRoom with isQuizEnded := true } ∧
    (endQuiz wRooms "h" "r").2 =
      [⟨Target.room "r", "quizEnded",
         quizEndedPayload
           (sortFinal (wRoom.players.map (finalResultHost wRoom.currentQuestionIndex)))
           (wRoom.currentQuestionIndex + 1) "host"⟩] ∧
    resultsMatchSpec
      (sortFinal (wRoom.players.map (finalResultHost wRoom.currentQuestionIndex)))
      (wRoom.players.map (finalResultHost wRoom.currentQuestionIndex))
      (wRoom.currentQuestionIndex + 1) :=
  (quiz_termination_results wRooms "h" "r" wRoom rfl rfl).1 rfl

/-- No message named `newQuestion` in the list carries a top-level
`correctIndex` field. -/
def NoCorrectIndexLeak (ems : List Emission) : Prop :=
  ∀ em ∈ ems, em.event = "newQuestion" → "correctIndex" ∉ payloadKeys em.payload

theorem noLeak_nil : NoCorrectIndexLeak [] := by
  intro em hm
  simp at hm

theorem noLeak_single_other (t : Target) (ev : String) (pl : JVal)
    (hev : ev ≠ "newQuestion") : NoCorrectIndexLeak [⟨t, ev, pl⟩] := by
  intro em hm h
  rcases List.mem_singleton.mp hm with rfl
  exact absurd h hev

theorem noLeak_endQuizAutomatically (rooms : Rooms) (rid : String) :
    NoCorrectIndexLeak (endQuizAutomatically rooms rid).2 := by
  rw [endQuizAutomatically]
  cases hf : findKey rooms rid with
  | none => exact noLeak_nil
  | some room =>
      dsimp only
      by_cases hend : room.isQuizEnded = true
      · rw [if_pos hend]
        exact noLeak_nil
      · rw [if_neg hend]
        exact noLeak_single_other _ _ _ (by decide)

theorem noLeak_sendQuestion (rooms : Rooms) (rid : String) :
    NoCorrectIndexLeak (sendQuestion rooms rid).2 := by
  rw [sendQuestion]
  cases hf : findKey rooms rid with
  | none => exact noLeak_nil
  | some room =>
      dsimp only
      by_cases hend : room.isQuizEnded = true
      · rw [if_pos hend]
        exact noLeak_nil
      · rw [if_neg hend]
        cases hq : room.questions.get? room.currentQuestionIndex with
        | none => exact noLeak_endQuizAutomatically rooms rid
        | some q =>
            dsimp only
            intro em hm hev
            rcases List.mem_singleton.mp hm with rfl
            simp [payloadKeys]

/-- C5: for every registry state, caller and inbound event, every message
named `newQuestion` the router emits — via `startQuiz`, `nextQuestion`
(through `sendQuestion`) or `sendManualQuestion` — carries no top-level
`correctIndex` field. -/
theorem newQuestion_never_reveals_correctIndex (rooms : Rooms) (caller : String)
    (e : Event) :
    ∀ em ∈ (step rooms caller e).2, em.event = "newQuestion" →
      "correctIndex" ∉ payloadKeys em.payload := by
  show NoCorrectIndexLeak (step rooms caller e).2
  cases e with
  | createRoom rid => exact noLeak_single_other _ _ _ (by decide)
  | joinRoom rid n =>
      simp only [step, joinRoom]
      cases hf : findKey rooms rid with
      | none => exact noLeak_single_other _ _ _ (by decide)
      | some room => exact noLeak_single_other _ _ _ (by decide)
  | addQuestion rid q =>
      simp only [step, addQuestion]
      cases hf : findKey rooms rid with
      | none => exact noLeak_nil
      | some room =>
          dsimp only
          by_cases hh : room.hostId = caller
          · rw [if_pos hh]
            exact noLeak_nil
          · rw [if_neg hh]
            exact noLeak_nil
  | startQuiz rid => exact noLeak_sendQuestion rooms rid
  | submitAnswer rid si =>
      simp only [step, submitAnswer]
      by_cases hne : rid = ""
      · rw [if_pos hne]
        exact noLeak_single_other _ _ _ (by decide)
      · rw [if_neg hne]
        cases hf : findKey rooms rid with
        | none => exact noLeak_single_other _ _ _ (by decide)
        | some room =>
            dsimp only
            cases hp : findKey room.players caller with
            | none => exact noLeak_single_other _ _ _ (by decide)
            | some player =>
                dsimp only
                by_cases hans : player.hasAnswered = true
                · rw [if_pos hans]
                  exact noLeak_single_other _ _ _ (by decide)
                · rw [if_neg hans]
                  by_cases hend : room.isQuizEnded = true
                  · rw [if_pos hend]
                    exact noLeak_single_other _ _ _ (by decide)
                  · rw [if_neg hend]
                    intro em hm hev
                    rcases List.mem_cons.mp hm with rfl | hm2
                    · simp at hev
                    · rcases List.mem_singleton.mp hm2 with rfl
                      simp at hev
  | nextQuestion rid =>
      simp only [step, nextQuestion]
      cases hf : findKey rooms rid with
      | none => exact noLeak_nil
      | some room =>
          dsimp only
          by_cases hh : room.hostId = caller
          · rw [if_pos hh]
            by_cases hend : room.isQuizEnded = true
            · rw [if_pos hend]
              exact noLeak_single_other _ _ _ (by decide)
            · rw [if_neg hend]
              exact noLeak_sendQuestion _ rid
          · rw [if_neg hh]
            exact noLeak_nil
  | endQuiz rid =>
      simp only [step, endQuiz]
      cases hf : findKey rooms rid with
      | none => exact noLeak_single_other _ _ _ (by decide)
      | some room =>
          dsimp only
          by_cases hh : room.hostId = caller
          · rw [if_pos hh]
            by_cases hend : room.isQuizEnded = true
            · rw [if_pos hend]
              exact noLeak_single_other _ _ _ (by decide)
            · rw [if_neg hend]
              exact noLeak_single_other _ _ _ (by decide)
          · rw [if_neg hh]
            exact noLeak_single_other _ _ _ (by decide)
  | sendManualQuestion rid q o ci =>
      simp only [step, sendManualQuestion]
      by_cases hne : rid = ""
      · rw [if_pos hne]
        exact noLeak_single_other _ _ _ (by decide)
      · rw [if_neg hne]
        cases hf : findKey rooms rid with
        | none => exact noLeak_single_other _ _ _ (by decide)
        | some room =>
            dsimp only
            by_cases hh : room.hostId = caller
            · rw [if_pos hh]
              by_cases hend : room.isQuizEnded = true
              · rw [if_pos hend]
                exact noLeak_single_other _ _ _ (by decide)
              · rw [if_neg hend]
                by_cases hval : q = "" ∨ o.length ≠ 4 ∨ ci < 0 ∨ 3 < ci
                · rw [if_pos hval]
                  exact noLeak_single_other _ _ _ (by decide)
                · rw [if_neg hval]
                  intro em hm hev
                  rcases List.mem_singleton.mp hm with rfl
                  simp [payloadKeys, questionDataToJVal]
            · rw [if_neg hh]
              exact noLeak_single_other _ _ _ (by decide)
  | getQuizStatus rid =>
      simp only [step, getQuizStatus]
      cases hf : findKey rooms rid with
      | none => exact noLeak_single_other _ _ _ (by decide)
      | some room => exact noLeak_single_other _ _ _ (by decide)
  | disconnect =>
      intro em hm hev
      obtain ⟨hpu, _⟩ := disconnect_emissions_shape rooms caller em hm
      rw [hpu] at hev
      exact absurd hev (by decide)

/-- C5 witness: the concrete `newQuestion` broadcast by `startQuiz` on the
sample room carries no `correctIndex` key. -/
theorem newQuestion_never_reveals_correctIndex_witness :
    (⟨Target.room "r", "newQuestion",
       JVal.obj [("index", JVal.num 0), ("questionNumber", JVal.num 1),
                 ("question", JVal.str "Q"),
                 ("options", JVal.arr (["a", "b", "c", "d"].map JVal.str))]⟩ : Emission) ∈
      (step wRooms "x" (Event.startQuiz "r")).2 ∧
    "correctIndex" ∉ payloadKeys
      (JVal.obj [("index", JVal.num 0), ("questionNumber", JVal.num 1),
                 ("question", JVal.str "Q"),
                 ("options", JVal.arr (["a", "b", "c", "d"].map JVal.str))]) :=
  ⟨List.mem_singleton.mpr rfl,
   newQuestion_never_reveals_correctIndex wRooms "x" (Event.startQuiz "r") _
     (List.mem_singleton.mpr rfl) rfl⟩


theorem findKey_eq_of_mem_nodup {α : Type} (l : List (String × α)) (k : String) (v : α)
    (hnd : (l.map Prod.fst).Nodup) (hmem : (k, v) ∈ l) : findKey l k = some v := by
  induction l with
  | nil => simp at hmem
  | cons hd tl ih =>
      rcases List.mem_cons.mp hmem with rfl | hmem2
      · simp [findKey]
      · have hk : hd.1 ≠ k := by
          intro hk
          have hmk : k ∈ tl.map Prod.fst := List.mem_map.mpr ⟨(k, v), hmem2, rfl⟩
          rw [List.map_cons, List.nodup_cons] at hnd
          exact hnd.1 (hk ▸ hmk)
        rw [List.map_cons, List.nodup_cons] at hnd
        simpa [findKey, hk] using ih hnd.2 hmem2

/-- C8: on disconnect of a connection, every room whose players map
contains it has exactly that entry removed and receives a
`playersUpdated` broadcast with the updated map; every other room is left
entirely unchanged and receives no broadcast; in particular a room whose
host disconnects keeps its host id, questions, cursor and flags — it is
neither deleted nor reassigned. -/
theorem disconnect_spec (rooms : Rooms) (caller : String)
    (hnd : (rooms.map Prod.fst).Nodup) :
    (∀ rid room, findKey rooms rid = some room →
      findKey room.players caller = none →
      findKey (disconnect rooms caller).1 rid = some room ∧
      ∀ pl, (⟨Target.room rid, "playersUpdated", pl⟩ : Emission) ∉
        (disconnect rooms caller).2) ∧
    (∀ rid room, findKey rooms rid = some room →
      (findKey room.players caller).isSome →
      findKey (disconnect rooms caller).1 rid =
        some { room with players := delKey room.players caller } ∧
      findKey (delKey room.players caller) caller = none ∧
      (⟨Target.room rid, "playersUpdated",
         playersToJVal (delKey room.players caller)⟩ : Emission) ∈
        (disconnect rooms caller).2 ∧
      ({ room with players := delKey room.players caller }).hostId = room.hostId ∧
      ({ room with players := delKey room.players caller }).questions = room.questions ∧
      ({ room with players := delKey room.players caller }).currentQuestionIndex =
        room.currentQuestionIndex ∧
      ({ room with players := delKey room.players caller }).isActive = room.isActive ∧
      ({ room with players := delKey room.players caller }).isQuizEnded =
        room.isQuizEnded) := by
  constructor
  · intro rid room hroom hnone
    constructor
    · rw [findKey_disconnect, hroom]
      simp [dropPlayer, hnone]
    · intro pl hmem
      obtain ⟨_, k, room2, hkmem, htarget, hsome, _⟩ :=
        disconnect_emissions_shape rooms caller _ hmem
      have hk : rid = k := Target.room.inj htarget
      subst hk
      have hfk := findKey_eq_of_mem_nodup rooms rid room2 hnd hkmem
      rw [hroom] at hfk
      injection hfk with hfk
      subst hfk
      rw [hnone] at hsome
      simp at hsome
  · intro rid room hroom hsome
    refine ⟨?_, findKey_delKey_self _ _,
      disconnect_emission_of_mem rooms caller rid room hroom hsome,
      rfl, rfl, rfl, rfl, rfl⟩
    rw [findKey_disconnect, hroom]
    simp [dropPlayer, hsome]

/-- Second sample room without player "p", for the disconnect witness. -/
def wRoomNoP : Room :=
  { wRoom with players := [("q", { name := "Q2", score := 0, hasAnswered := false, currentAnswer := none })] }

/-- Two-room registry for the disconnect witness. -/
def wRooms8 : Rooms := [("r1", wRoom), ("r2", wRoomNoP)]

/-- C8 witness: disconnecting "p" removes it from room "r1" (with the
broadcast) and leaves room "r2" untouched. -/
theorem disconnect_spec_witness :
    findKey (disconnect wRooms8 "p").1 "r2" = some wRoomNoP ∧
    findKey (disconnect wRooms8 "p").1 "r1" =
      some { wRoom with players := delKey wRoom.players "p" } ∧
    (⟨Target.room "r1", "playersUpdated",
       playersToJVal (delKey wRoom.players "p")⟩ : Emission) ∈
      (disconnect wRooms8 "p").2 :=
  ⟨((disconnect_spec wRooms8 "p" (by decide)).1 "r2" wRoomNoP rfl rfl).1,
   ((disconnect_spec wRooms8 "p" (by decide)).2 "r1" wRoom rfl rfl).1,
   ((disconnect_spec wRooms8 "p" (by decide)).2 "r1" wRoom rfl rfl).2.2.1⟩


/-- Trace version of `cca_step`: along any event sequence that never
overwrites the room via `createRoom`, a stored correct answer stays
present. -/
theorem cca_steps (rid : String) (tr : List (String × Event)) :
    ∀ rooms room, findKey rooms rid = some room →
      room.currentCorrectAnswer.isSome →
      (∀ ce ∈ tr, ce.2 ≠ Event.createRoom rid) →
      ∃ room', findKey (steps rooms tr) rid = some room' ∧
        room'.currentCorrectAnswer.isSome := by
  induction tr with
  | nil =>
      intro rooms room hroom hsome _
      exact ⟨room, hroom, hsome⟩
  | cons ce tl ih =>
      obtain ⟨cal, e⟩ := ce
      intro rooms room hroom hsome hall
      obtain ⟨room1, hf1, hcca⟩ := cca_step rooms cal e rid room hroom
        (hall (cal, e) (List.mem_cons_self _ _))
      have hsome1 : room1.currentCorrectAnswer.isSome := by
        rcases hcca with hc | ⟨q, o, ci, _, hc⟩
        · rw [hc]; exact hsome
        · rw [hc]; rfl
      exact ih (step rooms cal e).1 room1 hf1 hsome1
        (fun ce2 hce2 => hall ce2 (List.mem_cons_of_mem _ hce2))

/-- C9: once set, `currentCorrectAnswer` is never cleared — each single
event either preserves its value or (only a successful
`sendManualQuestion` on the room) replaces it with the new correct index;
along any `createRoom`-free trace it stays present; and whenever it is
set, `submitAnswer`'s grading compares the submission against it,
ignoring `questions[questionIndex].correctIndex` entirely. -/
theorem manual_answer_sticky :
    (∀ rooms caller e rid room v, findKey rooms rid = some room →
      room.currentCorrectAnswer = some v → e ≠ Event.createRoom rid →
      ∃ room', findKey (step rooms caller e).1 rid = some room' ∧
        (room'.currentCorrectAnswer = some v ∨
         ∃ q o ci, e = Event.sendManualQuestion rid q o ci ∧
           room'.currentCorrectAnswer = some ci)) ∧
    (∀ room si v, room.currentCorrectAnswer = some v →
      gradeAnswer room si = ((si == v), v)) ∧
    (∀ rid tr rooms room, findKey rooms rid = some room →
      room.currentCorrectAnswer.isSome →
      (∀ ce ∈ tr, ce.2 ≠ Event.createRoom rid) →
      ∃ room', findKey (steps rooms tr) rid = some room' ∧
        room'.currentCorrectAnswer.isSome) := by
  refine ⟨?_, ?_, ?_⟩
  · intro rooms caller e rid room v hroom hv hnc
    obtain ⟨room', hf, hc⟩ := cca_step rooms caller e rid room hroom hnc
    rcases hc with hc | hc
    · exact ⟨room', hf, Or.inl (hc.trans hv)⟩
    · exact ⟨room', hf, Or.inr hc⟩
  · intro room si v hv
    simp [gradeAnswer, hv]
  · intro rid tr rooms room hroom hsome hall
    exact cca_steps rid tr rooms room hroom hsome hall

/-- Sample room after a successful manual question: correct answer 3
stored, question active. -/
def wRoomM : Room := { wRoom with currentCorrectAnswer := some 3, isActive := true }

/-- C9 witness: the stored manual answer survives a `startQuiz` and a
`nextQuestion`, and grading goes against it rather than the pre-loaded
question's correct index 2. -/
theorem manual_answer_sticky_witness :
    (∃ room', findKey (step [("r", wRoomM)] "x" (Event.startQuiz "r")).1 "r" = some room' ∧
      (room'.currentCorrectAnswer = some 3 ∨
       ∃ q o ci, Event.startQuiz "r" = Event.sendManualQuestion "r" q o ci ∧
         room'.currentCorrectAnswer = some ci)) ∧
    gradeAnswer wRoomM 2 = ((2 == (3 : Int)), 3) ∧
    (∃ room', findKey (steps [("r", wRoomM)] [("h", Event.nextQuestion "r")]) "r" =
        some room' ∧ room'.currentCorrectAnswer.isSome) :=
  ⟨manual_answer_sticky.1 [("r", wRoomM)] "x" (Event.startQuiz "r") "r" wRoomM 3
     rfl rfl (by decide),
   manual_answer_sticky.2.1 wRoomM 2 3 rfl,
   manual_answer_sticky.2.2 "r" [("h", Event.nextQuestion "r")] [("r", wRoomM)] wRoomM
     rfl rfl (by decide)⟩

/-- C10: `startQuiz` performs no host or membership check — its result is
the same for every caller and equals the bare dispatch `sendQuestion` —
and on an existing, non-ended room with a question at the cursor it resets
every player's answered state and re-broadcasts the question; hence after
a repeated `startQuiz` a player who had already answered (and been scored)
can submit again and is scored again on the same question. -/
theorem startQuiz_unauthorized_rescore (rooms : Rooms) (c1 c2 rid : String)
    (room : Room) (q : Question)
    (hroom : findKey rooms rid = some room) (hend : room.isQuizEnded = false)
    (hq : room.questions.get? room.currentQuestionIndex = some q) :
    step rooms c1 (Event.startQuiz rid) = step rooms c2 (Event.startQuiz rid) ∧
    step rooms c1 (Event.startQuiz rid) = sendQuestion rooms rid ∧
    (sendQuestion rooms rid).1 =
      setKey rooms rid { room with players := resetPlayers room.players } ∧
    (sendQuestion rooms rid).2 =
      [⟨Target.room rid, "newQuestion",
         .obj [("index", .num room.currentQuestionIndex),
               ("questionNumber", .num (room.currentQuestionIndex + 1)),
               ("question", .str q.question),
               ("options", .arr (q.options.map JVal.str))]⟩] ∧
    (∀ c p, rid ≠ "" → findKey room.players c = some p → p.hasAnswered = true →
      room.currentCorrectAnswer = none →
      playerOf (steps rooms
          [(c1, Event.startQuiz rid), (c, Event.submitAnswer rid q.correctIndex)]) rid c =
        some { name := p.name, score := p.score + 1, hasAnswered := true,
               currentAnswer := some q.correctIndex }) := by
  have hsend : sendQuestion rooms rid =
      (setKey rooms rid { room with players := resetPlayers room.players },
       [⟨Target.room rid, "newQuestion",
          .obj [("index", .num room.currentQuestionIndex),
                ("questionNumber", .num (room.currentQuestionIndex + 1)),
                ("question", .str q.question),
                ("options", .arr (q.options.map JVal.str))]⟩]) := by
    rw [sendQuestion, hroom]
    dsimp only
    rw [if_neg (by simp [hend]), hq]
  refine ⟨rfl, rfl, by rw [hsend], by rw [hsend], ?_⟩
  intro c p hne hp hans hcca
  show playerOf
    (step (step rooms c1 (Event.startQuiz rid)).1 c (Event.submitAnswer rid q.correctIndex)).1
    rid c = _
  have h1 : (step rooms c1 (Event.startQuiz rid)).1 =
      setKey rooms rid { room with players := resetPlayers room.players } := by
    show (sendQuestion rooms rid).1 = _
    rw [hsend]
  rw [h1]
  show playerOf (submitAnswer
    (setKey rooms rid { room with players := resetPlayers room.players })
    c rid q.correctIndex).1 rid c = _
  rw [submitAnswer, if_neg hne,
    findKey_setKey_self rooms rid { room with players := resetPlayers room.players }]
  dsimp only
  have hfp : findKey (resetPlayers room.players) c = some (resetP p) := by
    rw [findKey_resetPlayers, hp]
    rfl
  rw [hfp]
  dsimp only
  rw [if_neg (by simp [resetP]), if_neg (by simp [hend])]
  rw [playerOf_setKey_self, findKey_setKey_self]
  have hq2 : room.questions[room.currentQuestionIndex]? = some q := by
    rw [← List.get?_eq_getElem?]
    exact hq
  have hg : gradeAnswer { room with players := resetPlayers room.players } q.correctIndex =
      (true, q.correctIndex) := by
    simp [gradeAnswer, hcca, hq2]
  rw [hg]
  simp [resetP]

/-- Sample room in which player "p" has already answered the pre-loaded
question correctly and holds score 1. -/
def wRoomAnswered : Room :=
  { wRoom with
      players := [("p", { name := "P", score := 1, hasAnswered := true, currentAnswer := some 2 })] }

/-- Registry holding `wRoomAnswered` under id "r". -/
def wRoomsAnswered : Rooms := [("r", wRoomAnswered)]

/-- C10 witness: in the sample room the player "p" has answered and scored
once; a `startQuiz` issued by the stranger "z" (neither host nor player)
resets the flags, and "p" scores a second time on the same question. -/
theorem startQuiz_unauthorized_rescore_witness :
    step wRoomsAnswered "z" (Event.startQuiz "r") =
      step wRoomsAnswered "q" (Event.startQuiz "r") ∧
    playerOf (steps wRoomsAnswered
        [("z", Event.startQuiz "r"), ("p", Event.submitAnswer "r" 2)]) "r" "p" =
      some { name := "P", score := 2, hasAnswered := true, currentAnswer := some 2 } :=
  ⟨(startQuiz_unauthorized_rescore wRoomsAnswered "z" "q" "r" wRoomAnswered
      { question := "Q", options := ["a", "b", "c", "d"], correctIndex := 2 }
      rfl rfl rfl).1,
   (startQuiz_unauthorized_rescore wRoomsAnswered "z" "q" "r" wRoomAnswered
      { question := "Q", options := ["a", "b", "c", "d"], correctIndex := 2 }
      rfl rfl rfl).2.2.2.2 "p"
      { name := "P", score := 1, hasAnswered := true, currentAnswer := some 2 }
      (by decide) rfl rfl rfl⟩


/-- The per-question potential of a player record: score plus one pending
point when the player has not yet answered the open question. -/
def phiP (p : Player) : Nat :=
  p.score + (if p.hasAnswered then 0 else 1)

/-- A step is safe for room `rid` and player `c` when it keeps the player
present and never resets the answered flag from true to false — i.e. it is
neither a question dispatch that resets this player, nor a rejoin of `c`,
nor a removal of the player. -/
def SafeStep (rooms : Rooms) (cal : String) (e : Event) (rid c : String) : Prop :=
  ∀ p, playerOf rooms rid c = some p →
    ∃ p', playerOf (step rooms cal e).1 rid c = some p' ∧
      (p.hasAnswered = true → p'.hasAnswered = true)

/-- A trace is safe when every step of it is safe in the state it runs in:
this is exactly the stretch of events between two consecutive resets of
the player's `hasAnswered`. -/
def SafeTrace : Rooms → List (String × Event) → String → String → Prop
  | _, [], _, _ => True
  | rooms, (cal, e) :: tr, rid, c =>
      SafeStep rooms cal e rid c ∧ SafeTrace (step rooms cal e).1 tr rid c

theorem phiP_step (rooms : Rooms) (cal : String) (e : Event) (rid c : String)
    (p p' : Player) (hp : playerOf rooms rid c = some p)
    (hp' : playerOf (step rooms cal e).1 rid c = some p')
    (hmono : p.hasAnswered = true → p'.hasAnswered = true) :
    phiP p' ≤ phiP p := by
  rcases playerOf_step rooms cal e rid c p hp with
    h | h | h | ⟨_, n, _, h⟩ | ⟨_, si, room, _, _, _, _, hans, h⟩
  · rw [hp'] at h
    injection h with h
    subst h
    exact le_refl _
  · rw [hp'] at h
    simp at h
  · rw [hp'] at h
    injection h with h
    subst h
    by_cases hpa : p.hasAnswered = true
    · have hmm := hmono hpa
      simp [resetP] at hmm
    · have hpa2 : p.hasAnswered = false := by
        revert hpa
        cases p.hasAnswered <;> simp
      simp [phiP, resetP, hpa2]
  · rw [hp'] at h
    injection h with h
    subst h
    by_cases hpa : p.hasAnswered = true
    · have hmm := hmono hpa
      simp at hmm
    · have hpa2 : p.hasAnswered = false := by
        revert hpa
        cases p.hasAnswered <;> simp
      simp [phiP, hpa2]
  · rw [hp'] at h
    injection h with h
    subst h
    by_cases hg : (gradeAnswer room si).1 <;> simp [phiP, hans, hg]

theorem phiP_steps (rid c : String) (tr : List (String × Event)) :
    ∀ rooms p p', SafeTrace rooms tr rid c → playerOf rooms rid c = some p →
      playerOf (steps rooms tr) rid c = some p' → phiP p' ≤ phiP p := by
  induction tr with
  | nil =>
      intro rooms p p' _ hp hp'
      simp only [steps] at hp'
      rw [hp] at hp'
      injection hp' with hp'
      subst hp'
      exact le_refl _
  | cons ce tl ih =>
      obtain ⟨cal, e⟩ := ce
      intro rooms p p' hsafe hp hp'
      obtain ⟨hstep, htl⟩ := hsafe
      obtain ⟨pm, hpm, hmono⟩ := hstep p hp
      exact le_trans (ih _ pm p' htl hpm hp')
        (phiP_step rooms cal e rid c p pm hp hpm hmono)

/-- C1 (amended): across any single event other than a rejoin of the same
connection (which overwrites the record with score 0), a surviving
player's score never decreases, and it changes only inside that player's
own successful `submitAnswer` graded correct, by exactly 1, flipping
`hasAnswered` from false to true. Along any safe trace — one whose steps
keep the player present and never reset `hasAnswered` from true to false,
i.e. the stretch between two consecutive question dispatches with no
rejoin — the score increases at most once in total, and not at all once
the player has already answered. -/
theorem score_discipline :
    (∀ rooms caller e rid c p p',
      ¬(caller = c ∧ ∃ n, e = Event.joinRoom rid n) →
      playerOf rooms rid c = some p →
      playerOf (step rooms caller e).1 rid c = some p' →
      p.score ≤ p'.score ∧
      (p'.score ≠ p.score →
        p'.score = p.score + 1 ∧ p.hasAnswered = false ∧ p'.hasAnswered = true ∧
        caller = c ∧ ∃ si room, e = Event.submitAnswer rid si ∧
          findKey rooms rid = some room ∧ room.isQuizEnded = false ∧
          (gradeAnswer room si).1 = true)) ∧
    (∀ rid c tr rooms p p', SafeTrace rooms tr rid c →
      playerOf rooms rid c = some p →
      playerOf (steps rooms tr) rid c = some p' →
      p'.score ≤ p.score + 1 ∧ (p.hasAnswered = true → p'.score ≤ p.score)) := by
  constructor
  · intro rooms caller e rid c p p' hnj hp hp'
    rcases playerOf_step rooms caller e rid c p hp with
      h | h | h | ⟨hc, n, he, h⟩ | ⟨hc, si, room, he, hroom, hend, hfp, hans, h⟩
    · rw [hp'] at h
      injection h with h
      subst h
      exact ⟨le_refl _, fun hne => absurd rfl hne⟩
    · rw [hp'] at h
      simp at h
    · rw [hp'] at h
      injection h with h
      subst h
      exact ⟨le_refl _, fun hne => absurd rfl hne⟩
    · exact absurd ⟨hc, n, he⟩ hnj
    · rw [hp'] at h
      injection h with h
      subst h
      constructor
      · exact Nat.le_add_right _ _
      · intro hne
        by_cases hg : (gradeAnswer room si).1
        · exact ⟨by simp [hg], hans, rfl, hc, si, room, he, hroom, hend, by simpa using hg⟩
        · exact absurd (by simp [hg]) hne
  · intro rid c tr rooms p p' hsafe hp hp'
    have hphi := phiP_steps rid c tr rooms p p' hsafe hp hp'
    unfold phiP at hphi
    constructor
    · by_cases hpa : p.hasAnswered <;> simp [hpa] at hphi <;> omega
    · intro hpa
      simp [hpa] at hphi
      omega

/-- The sample pre-loaded question, for witnesses. -/
def wQ : Question := { question := "Q", options := ["a", "b", "c", "d"], correctIndex := 2 }

/-- C1 witness: a host `addQuestion` step is safe for the sample player
and changes neither score nor potential. -/
theorem score_discipline_witness :
    ((0 : Nat) ≤ 0) ∧ ((0 : Nat) ≤ 0 + 1) :=
  ⟨(score_discipline.1 wRooms "h" (Event.addQuestion "r" wQ) "r" "p"
      { name := "P", score := 0, hasAnswered := false, currentAnswer := none }
      { name := "P", score := 0, hasAnswered := false, currentAnswer := none }
      (by rintro ⟨_, _, h⟩; exact Event.noConfusion h) rfl rfl).1,
   (score_discipline.2 "r" "p" [("h", Event.addQuestion "r" wQ)] wRooms
      { name := "P", score := 0, hasAnswered := false, currentAnswer := none }
      { name := "P", score := 0, hasAnswered := false, currentAnswer := none }
      ⟨by
        intro p hp
        rw [show playerOf wRooms "r" "p" =
              some { name := "P", score := 0, hasAnswered := false, currentAnswer := none }
            from rfl] at hp
        injection hp with hp
        subst hp
        exact ⟨_, rfl, fun h => h⟩, trivial⟩
      rfl rfl).1⟩

/-- C1 counterexample: in the sample room the player "p" holds score 1;
a rejoin (`joinRoom` from the same connection) overwrites the record with
a fresh one of score 0 — the score decreases across an operation. -/
theorem score_decrease_on_rejoin :
    playerOf wRoomsAnswered "r" "p" =
      some { name := "P", score := 1, hasAnswered := true, currentAnswer := some 2 } ∧
    playerOf (step wRoomsAnswered "p" (Event.joinRoom "r" "P")).1 "r" "p" =
      some { name := "P", score := 0, hasAnswered := false, currentAnswer := none } ∧
    (0 : Nat) < 1 :=
  ⟨rfl, rfl, by decide⟩

end Quiz
